import Mathlib

/-!
Shallow embedding of src/snkit/simplify.py (the snkit network simplification
pipeline) over exact rational coordinates.

Modelling conventions, used throughout:

- Points are pairs of rationals, LineString geometries are lists of points.
- Comparisons that the Python code performs on Euclidean distances between
  points are modelled with squared Euclidean distance, which induces the same
  order on comparisons, so every branch taken is the same.
- Calls into the external geometry / spatial-index libraries (pygeos, shapely,
  numpy) are modelled either concretely over rational coordinates or, where
  the library computes irrational values (centroids, lengths, linear merging)
  or maintains an R-tree, as explicit collaborator function parameters.  The
  control flow and table manipulation of simplify.py itself is translated
  directly from the source.
- pandas DataFrames become Lean lists of structures; positional access
  (iloc) is access by list position, label access is noted where it occurs.
- Python integers are ℤ, counts and positions are ℕ.
-/

/-- A point geometry: pair of rational coordinates. -/
abbrev Pt : Type := ℚ × ℚ

/-- A LineString geometry: list of vertices. -/
abbrev Geom : Type := List Pt

/-- Squared Euclidean distance between two points.  The source compares
pygeos/shapely Euclidean distances between points; squaring preserves every
such comparison. -/
def sqDist (a b : Pt) : ℚ := (a.1 - b.1) ^ 2 + (a.2 - b.2) ^ 2

/-- Squared Euclidean distance from a point to the segment from a to b,
computed exactly: shapely point.distance(LineString([a, b])) compares
identically. -/
def sqDistPtSeg (p a b : Pt) : ℚ :=
  let abx := b.1 - a.1
  let aby := b.2 - a.2
  let len2 := abx ^ 2 + aby ^ 2
  if len2 = 0 then sqDist p a
  else
    let t := ((p.1 - a.1) * abx + (p.2 - a.2) * aby) / len2
    if t ≤ 0 then sqDist p a
    else if 1 ≤ t then sqDist p b
    else sqDist p (a.1 + t * abx, a.2 + t * aby)

/-- Squared distance from a point to a polyline (minimum over its segments);
used to model pygeos.distance(point, linestring) comparisons. -/
def sqDistPtGeom (p : Pt) (g : Geom) : ℚ :=
  match (List.zipWith (fun a b => sqDistPtSeg p a b) g g.tail).argmin id with
  | some d => d
  | none => match g with
    | [] => 0
    | a :: _ => sqDist p a

/-- Whether a point lies on the segment from a to b (exact test). -/
def onSeg (p a b : Pt) : Bool := sqDistPtSeg p a b = 0

/-- Whether a point lies on a polyline: on some segment of it (models the
pygeos intersects predicate between a point and a LineString). -/
def pointOnGeom (p : Pt) (g : Geom) : Bool :=
  (List.zipWith (fun a b => onSeg p a b) g g.tail).any id ||
    (match g with
     | [q] => p = q
     | _ => false)

/-! ## Geometry utilities: add_vertex (simplify.py lines 907-946) -/

/-- Source nearest_vertex_idx_on_line: index of the vertex of the line nearest
to the point.  Python min returns the first minimizer, as does List.argmin.
Enumerate-and-minimize is modelled over List.range of the vertex count. -/
def nearest_vertex_idx_on_line (point : Pt) (line : Geom) : ℕ :=
  match ((List.range line.length).map
      (fun idx => (idx, sqDist point (line.getD idx (0, 0))))).argmin (fun item => item.2) with
  | some item => item.1
  | none => 0

/-- Position chosen by source add_vertex for the inserted point relative to
the nearest vertex index v_idx: just after the start vertex, just before the
end vertex, or between the vertices of the nearer adjacent segment. -/
def insert_before_idx (line : Geom) (point : Pt) (v_idx : ℕ) : ℕ :=
  if v_idx = 0 then 1
  else if v_idx = line.length - 1 then v_idx
  else if sqDistPtSeg point (line.getD v_idx (0, 0)) (line.getD (v_idx - 1) (0, 0)) <
      sqDistPtSeg point (line.getD v_idx (0, 0)) (line.getD (v_idx + 1) (0, 0)) then v_idx
  else v_idx + 1

/-- Source add_vertex: return the line unchanged when the point coincides with
its nearest vertex, otherwise insert the point into the coordinate sequence
at the computed position. -/
def add_vertex (line : Geom) (point : Pt) : Geom :=
  if line.get? (nearest_vertex_idx_on_line point line) = some point then line
  else line.insertIdx (insert_before_idx line point (nearest_vertex_idx_on_line point line)) point

/-! ## Degree engine: bincount and calculate_degree (simplify.py lines 515-519) -/

/-- np.bincount(vals, None, n): bucket counts over one pass, buckets indexed by
the integer value.  The source guarantees values within range (valid node
ids); out-of-range writes are no-ops here (List.set out of range). -/
def bincount (n : ℕ) (vals : List ℤ) : List ℕ :=
  vals.foldl (fun acc v => acc.set v.toNat (acc.getD v.toNat 0 + 1)) (List.replicate n 0)

/-- Source calculate_degree: bincount of the from_id column plus bincount of
the to_id column, with the node count as the number of bins. -/
def calculate_degree (nodeCount : ℕ) (from_ids to_ids : List ℤ) : List ℕ :=
  List.zipWith (· + ·) (bincount nodeCount from_ids) (bincount nodeCount to_ids)

/-! ### Lemmas for bincount -/

lemma bincount_go_length (vals : List ℤ) (acc : List ℕ) :
    (vals.foldl (fun acc v => acc.set v.toNat (acc.getD v.toNat 0 + 1)) acc).length =
      acc.length := by
  induction vals generalizing acc with
  | nil => rfl
  | cons v vs ih => simpa [List.foldl_cons] using ih (acc.set v.toNat (acc.getD v.toNat 0 + 1))

lemma bincount_length (n : ℕ) (vals : List ℤ) : (bincount n vals).length = n := by
  unfold bincount
  rw [bincount_go_length]
  exact List.length_replicate n 0

lemma bincount_go_getD (vals : List ℤ) (acc : List ℕ) (i : ℕ) (hi : i < acc.length)
    (hv : ∀ v ∈ vals, 0 ≤ v ∧ v.toNat < acc.length) :
    (vals.foldl (fun acc v => acc.set v.toNat (acc.getD v.toNat 0 + 1)) acc).getD i 0 =
      acc.getD i 0 + vals.countP (fun v => v = (i : ℤ)) := by
  induction vals generalizing acc with
  | nil => simp
  | cons v vs ih =>
    have hv0 := hv v (by simp)
    have hlen : (acc.set v.toNat (acc.getD v.toNat 0 + 1)).length = acc.length :=
      List.length_set acc _ _
    rw [List.foldl_cons,
      ih (acc.set v.toNat (acc.getD v.toNat 0 + 1)) (by rw [hlen]; exact hi)
        (fun w hw => by rw [hlen]; exact hv w (by simp [hw]))]
    by_cases hvi : v = (i : ℤ)
    · have hti : v.toNat = i := by rw [hvi]; exact Int.toNat_natCast i
      rw [List.countP_cons_of_pos _ _ (by simpa using hvi)]
      have hset : (acc.set v.toNat (acc.getD v.toNat 0 + 1)).getD i 0 = acc.getD i 0 + 1 := by
        subst hti
        simp [List.getD_eq_getElem?_getD, List.getElem?_set, hi,
          List.getElem?_eq_getElem hi]
      rw [hset]; ring
    · have hti : v.toNat ≠ i := by
        intro hcontra
        exact hvi (by rw [← hcontra, Int.toNat_of_nonneg hv0.1])
      rw [List.countP_cons_of_neg _ _ (by simpa using hvi)]
      have hset : (acc.set v.toNat (acc.getD v.toNat 0 + 1)).getD i 0 = acc.getD i 0 := by
        simp [List.getD_eq_getElem?_getD, List.getElem?_set, hti]
      rw [hset]

lemma bincount_getD (n : ℕ) (vals : List ℤ) (i : ℕ) (hi : i < n)
    (hv : ∀ v ∈ vals, 0 ≤ v ∧ v.toNat < n) :
    (bincount n vals).getD i 0 = vals.countP (fun v => v = (i : ℤ)) := by
  unfold bincount
  rw [bincount_go_getD vals (List.replicate n 0) i (by simpa using hi)
    (fun v hvm => by simpa using hv v hvm)]
  simp

/-- C9: with dense node ids 0..n-1 and every edge endpoint a valid node id,
calculate_degree assigns to each node id the count of edges whose from_id
equals that id plus the count of edges whose to_id equals that id.  Edges are
represented by their from_id and to_id columns, exactly the data the source
function reads. -/
theorem C9_calculate_degree_counts (n : ℕ) (from_ids to_ids : List ℤ)
    (hf : ∀ v ∈ from_ids, 0 ≤ v ∧ v.toNat < n) (ht : ∀ v ∈ to_ids, 0 ≤ v ∧ v.toNat < n)
    (i : ℕ) (hi : i < n) :
    (calculate_degree n from_ids to_ids).getD i 0 =
      from_ids.countP (fun v => v = (i : ℤ)) + to_ids.countP (fun v => v = (i : ℤ)) := by
  unfold calculate_degree
  have hlf := bincount_length n from_ids
  have hlt := bincount_length n to_ids
  have hzip : (List.zipWith (· + ·) (bincount n from_ids) (bincount n to_ids)).getD i 0 =
      (bincount n from_ids).getD i 0 + (bincount n to_ids).getD i 0 := by
    rw [List.getD_eq_getElem?_getD, List.getElem?_zipWith]
    rw [List.getElem?_eq_getElem (by rw [hlf]; exact hi),
      List.getElem?_eq_getElem (by rw [hlt]; exact hi)]
    simp [List.getD_eq_getElem?_getD, List.getElem?_eq_getElem,
      List.getElem?_eq_getElem (show i < (bincount n from_ids).length by rw [hlf]; exact hi),
      List.getElem?_eq_getElem (show i < (bincount n to_ids).length by rw [hlt]; exact hi)]
  rw [hzip, bincount_getD n from_ids i hi hf, bincount_getD n to_ids i hi ht]

/-- C9 witness: a concrete instantiation.  Two nodes, edges (0 to 1) and
(1 to 1); node 1 has one outgoing and two incoming references. -/
theorem C9_calculate_degree_counts_witness :
    (calculate_degree 2 [0, 1] [1, 1]).getD 1 0 =
      List.countP (fun v => v = (1 : ℤ)) [0, 1] + List.countP (fun v => v = (1 : ℤ)) [1, 1] :=
  C9_calculate_degree_counts 2 [0, 1] [1, 1] (by decide) (by decide) 1 (by decide)

/-! ### C10: add_vertex -/

lemma nearest_vertex_idx_lt (point : Pt) (line : Geom) (h : line ≠ []) :
    nearest_vertex_idx_on_line point line < line.length := by
  unfold nearest_vertex_idx_on_line
  have hne : ((List.range line.length).map
      (fun idx => (idx, sqDist point (line.getD idx (0, 0))))) ≠ [] := by
    simp only [ne_eq, List.map_eq_nil_iff, List.range_eq_nil]
    intro hl
    exact h (List.eq_nil_of_length_eq_zero hl)
  rcases ha : ((List.range line.length).map
      (fun idx => (idx, sqDist point (line.getD idx (0, 0))))).argmin (fun item => item.2) with
    _ | item
  · exact absurd (List.argmin_eq_none.mp ha) hne
  · rw [ha]
    have hmem : item ∈ (List.range line.length).map
        (fun idx => (idx, sqDist point (line.getD idx (0, 0)))) := List.argmin_mem ha
    simp only [List.mem_map, List.mem_range] at hmem
    obtain ⟨idx, hidx, heq⟩ := hmem
    rw [← heq]
    exact hidx

/-- C10: for a nonempty line, if the point equals the line's nearest vertex
then add_vertex returns the line unchanged; otherwise it returns the line with
the point inserted at exactly one position within the sequence, so the result
has exactly one more vertex and all original vertices in their original
order. -/
theorem C10_add_vertex_insert_or_unchanged (line : Geom) (point : Pt) (h : line ≠ []) :
    (line.get? (nearest_vertex_idx_on_line point line) = some point ∧
      add_vertex line point = line) ∨
    (line.get? (nearest_vertex_idx_on_line point line) ≠ some point ∧
      ∃ i, i ≤ line.length ∧ add_vertex line point = line.insertIdx i point) := by
  have hlt := nearest_vertex_idx_lt point line h
  have hlen1 : 1 ≤ line.length := by
    cases line with
    | nil => exact absurd rfl h
    | cons a l => simp
  by_cases hc : line.get? (nearest_vertex_idx_on_line point line) = some point
  · left
    refine ⟨hc, ?_⟩
    unfold add_vertex
    rw [if_pos hc]
  · right
    refine ⟨hc, ?_⟩
    refine ⟨insert_before_idx line point (nearest_vertex_idx_on_line point line), ?_, ?_⟩
    · unfold insert_before_idx
      by_cases h0 : nearest_vertex_idx_on_line point line = 0
      · simpa [h0] using hlen1
      · by_cases hlast : nearest_vertex_idx_on_line point line = line.length - 1
        · rw [if_neg h0, if_pos hlast]
          exact le_of_lt hlt
        · rw [if_neg h0, if_neg hlast]
          have hmid : nearest_vertex_idx_on_line point line < line.length - 1 :=
            lt_of_le_of_ne (Nat.le_sub_one_of_lt hlt) hlast
          by_cases hseg : sqDistPtSeg point
              (line.getD (nearest_vertex_idx_on_line point line) (0, 0))
              (line.getD (nearest_vertex_idx_on_line point line - 1) (0, 0)) <
              sqDistPtSeg point (line.getD (nearest_vertex_idx_on_line point line) (0, 0))
              (line.getD (nearest_vertex_idx_on_line point line + 1) (0, 0))
          · rw [if_pos hseg]
            exact le_of_lt hlt
          · rw [if_neg hseg]
            omega
    · unfold add_vertex
      rw [if_neg hc]

/-- C10 witness: inserting the point (2, 1) into the two-vertex segment from
(0, 0) to (4, 0); the nearest vertex is (4, 0), distinct from the point, and
the point is inserted at position 1. -/
theorem C10_add_vertex_insert_or_unchanged_witness :
    (List.get? [((0 : ℚ), (0 : ℚ)), ((4 : ℚ), (0 : ℚ))] (nearest_vertex_idx_on_line ((2 : ℚ), (1 : ℚ))
        [((0 : ℚ), (0 : ℚ)), ((4 : ℚ), (0 : ℚ))]) = some ((2 : ℚ), (1 : ℚ)) ∧
      add_vertex [((0 : ℚ), (0 : ℚ)), ((4 : ℚ), (0 : ℚ))] ((2 : ℚ), (1 : ℚ)) =
        [((0 : ℚ), (0 : ℚ)), ((4 : ℚ), (0 : ℚ))]) ∨
    (List.get? [((0 : ℚ), (0 : ℚ)), ((4 : ℚ), (0 : ℚ))] (nearest_vertex_idx_on_line ((2 : ℚ), (1 : ℚ))
        [((0 : ℚ), (0 : ℚ)), ((4 : ℚ), (0 : ℚ))]) ≠ some ((2 : ℚ), (1 : ℚ)) ∧
      ∃ i, i ≤ ([((0 : ℚ), (0 : ℚ)), ((4 : ℚ), (0 : ℚ))] : Geom).length ∧
        add_vertex [((0 : ℚ), (0 : ℚ)), ((4 : ℚ), (0 : ℚ))] ((2 : ℚ), (1 : ℚ)) =
          ([((0 : ℚ), (0 : ℚ)), ((4 : ℚ), (0 : ℚ))] : Geom).insertIdx i ((2 : ℚ), (1 : ℚ))) :=
  C10_add_vertex_insert_or_unchanged [((0 : ℚ), (0 : ℚ)), ((4 : ℚ), (0 : ℚ))]
    ((2 : ℚ), (1 : ℚ)) (by decide)

/-! ## ID and table manager: reset_ids (simplify.py lines 962-985) -/

/-- A node row for the id-management stages: the id column plus the node's
non-id payload (geometry, degree and any other column, abstracted as one
value). -/
structure RNode (γ : Type) where
  id : ℤ
  geom : γ
deriving DecidableEq

/-- An edge row for the id-management stages: the three id columns plus the
edge's non-id payload. -/
structure REdge (δ : Type) where
  id : ℤ
  from_id : ℤ
  to_id : ℤ
  geom : δ
deriving DecidableEq

/-- Lookup in dict(zip(nodes.id, range(len(nodes)))).  When an id occurs
twice the later pair wins, as in a Python dict built from a sequence of
pairs, hence the recursion prefers a match found further right. -/
def id_dict_go (k : ℤ) : List ℤ → ℕ → Option ℕ
  | [], _ => none
  | i :: rest, pos =>
    match id_dict_go k rest (pos + 1) with
    | some v => some v
    | none => if i = k then some pos else none

/-- Position that the node id dictionary of reset_ids assigns to an old node
id, when the id is present in the node table. -/
def id_dict {γ : Type} (nodes : List (RNode γ)) (k : ℤ) : Option ℕ :=
  id_dict_go k (nodes.map (fun nd => nd.id)) 0

/-- One from_id or to_id value after the masked rewrite loop of reset_ids: a
value equal to some dictionary key becomes that key's new id, any other value
stays (each mask compares against the original column, so no chained
rewriting occurs). -/
def remap_ref {γ : Type} (nodes : List (RNode γ)) (x : ℤ) : ℤ :=
  match id_dict nodes x with
  | some v => (v : ℤ)
  | none => x

/-- Source reset_ids: nodes get ids 0..n-1 in row order, edges get ids 0..m-1
in row order, every from_id and to_id is rewritten through the id dictionary,
and all other columns are untouched. -/
def reset_ids {γ δ : Type} (nodes : List (RNode γ)) (edges : List (REdge δ)) :
    List (RNode γ) × List (REdge δ) :=
  (nodes.mapIdx (fun i nd => { nd with id := (i : ℤ) }),
   edges.mapIdx (fun i e =>
     { e with
       id := (i : ℤ)
       from_id := remap_ref nodes e.from_id
       to_id := remap_ref nodes e.to_id }))

/-- Geometry (payload) of the node carrying a given id; pandas row selection
by id returns the first matching row. -/
def node_geom_of_id {γ : Type} (nodes : List (RNode γ)) (k : ℤ) : Option γ :=
  (nodes.find? (fun nd => nd.id = k)).map (fun nd => nd.geom)

/-! ### Lemmas for reset_ids -/

lemma id_dict_go_none (k : ℤ) (ids : List ℤ) (pos : ℕ) (h : k ∉ ids) :
    id_dict_go k ids pos = none := by
  induction ids generalizing pos with
  | nil => rfl
  | cons i rest ih =>
    have hk : k ∉ rest := fun hm => h (List.mem_cons_of_mem i hm)
    have hik : ¬ i = k := fun he => h (by simp [he])
    simp [id_dict_go, ih (pos + 1) hk, hik]

lemma id_dict_go_spec (k : ℤ) (ids : List ℤ) (hnd : ids.Nodup) (j : ℕ)
    (hj : j < ids.length) (hk : ids[j] = k) (pos : ℕ) :
    id_dict_go k ids pos = some (pos + j) := by
  induction ids generalizing pos j with
  | nil => simp at hj
  | cons i rest ih =>
    cases j with
    | zero =>
      have hi : i = k := by simpa using hk
      have hnotin : k ∉ rest := by
        subst hi
        exact (List.nodup_cons.mp hnd).1
      simp [id_dict_go, id_dict_go_none k rest (pos + 1) hnotin, hi]
    | succ j' =>
      have hrest : id_dict_go k rest (pos + 1) = some (pos + 1 + j') :=
        ih (List.nodup_cons.mp hnd).2 j' (by simpa using hj) (by simpa using hk) (pos + 1)
      simp only [id_dict_go, hrest]
      congr 1
      omega

lemma id_dict_spec {γ : Type} (nodes : List (RNode γ)) (k : ℤ)
    (hnd : (nodes.map (fun nd => nd.id)).Nodup) (j : ℕ) (hj : j < nodes.length)
    (hk : (nodes[j]).id = k) : id_dict nodes k = some j := by
  unfold id_dict
  have hj' : j < (nodes.map (fun nd => nd.id)).length := by simpa using hj
  have hkk : (nodes.map (fun nd => nd.id))[j] = k := by
    simpa [List.getElem_map] using hk
  simpa using id_dict_go_spec k (nodes.map (fun nd => nd.id)) hnd j hj' hkk 0

lemma find?_eq_getElem {α : Type} (p : α → Bool) (l : List α) (j : ℕ) (hj : j < l.length)
    (hpj : p (l[j]) = true)
    (hbefore : ∀ i (hi : i < l.length), i < j → p (l[i]) = false) :
    l.find? p = some (l[j]) := by
  induction l generalizing j with
  | nil => simp at hj
  | cons a t ih =>
    cases j with
    | zero =>
      rw [List.find?_cons_of_pos _ (by simpa using hpj)]
      simp
    | succ j' =>
      have ha : p a = false := by
        simpa using hbefore 0 (by simp) (by omega)
      rw [List.find?_cons_of_neg _ (by simp [ha])]
      simpa using ih j' (by simpa using hj) (by simpa using hpj)
        (fun i hi hij => by simpa using hbefore (i + 1) (by simpa using hi) (by omega))

lemma nodup_id_ne {γ : Type} (nodes : List (RNode γ))
    (hnd : (nodes.map (fun nd => nd.id)).Nodup) (i j : ℕ) (hi : i < nodes.length)
    (hj : j < nodes.length) (hij : i ≠ j) : (nodes[i]).id ≠ (nodes[j]).id := by
  intro hcontra
  have hi2 : i < (nodes.map (fun nd => nd.id)).length := by simpa using hi
  have hj2 : j < (nodes.map (fun nd => nd.id)).length := by simpa using hj
  have h1 : (nodes.map (fun nd => nd.id))[i] = (nodes.map (fun nd => nd.id))[j] := by
    simpa [List.getElem_map] using hcontra
  exact hij ((List.Nodup.getElem_inj_iff hnd).mp h1)

lemma reset_nodes_length {γ : Type} (nodes : List (RNode γ)) :
    (nodes.mapIdx (fun i nd => { nd with id := (i : ℤ) })).length = nodes.length :=
  List.length_mapIdx

lemma remap_ref_geom {γ : Type} (nodes : List (RNode γ))
    (hnd : (nodes.map (fun nd => nd.id)).Nodup) (k : ℤ)
    (hk : k ∈ nodes.map (fun nd => nd.id)) :
    node_geom_of_id (nodes.mapIdx (fun i nd => { nd with id := (i : ℤ) }))
      (remap_ref nodes k) = node_geom_of_id nodes k := by
  obtain ⟨j, hj', hkj⟩ := List.mem_iff_getElem.mp hk
  have hj : j < nodes.length := by simpa using hj'
  have hkj' : (nodes[j]).id = k := by
    simpa [List.getElem_map] using hkj
  have hdict : id_dict nodes k = some j := id_dict_spec nodes k hnd j hj hkj'
  have hremap : remap_ref nodes k = (j : ℤ) := by
    unfold remap_ref
    rw [hdict]
  rw [hremap]
  have hlen : j < (nodes.mapIdx (fun i nd => { nd with id := (i : ℤ) })).length := by
    rw [reset_nodes_length]; exact hj
  have hfind1 := find?_eq_getElem (fun nd => decide (nd.id = (j : ℤ)))
    (nodes.mapIdx (fun i nd => { nd with id := (i : ℤ) })) j hlen
    (by simp [List.getElem_mapIdx])
    (fun i hi hij => by
      simp only [List.getElem_mapIdx]
      simp only [decide_eq_false_iff_not]
      intro hcast
      exact absurd (by exact_mod_cast hcast) (Nat.ne_of_lt hij))
  have hfind2 := find?_eq_getElem (fun nd => decide (nd.id = k)) nodes j hj
    (by simp [hkj'])
    (fun i hi hij => by
      simp only [decide_eq_false_iff_not]
      rw [← hkj']
      exact nodup_id_ne nodes hnd i j hi hj (Nat.ne_of_lt hij))
  unfold node_geom_of_id
  rw [hfind1, hfind2]
  simp [List.getElem_mapIdx]

/-- C8: for a network with unique node ids and every edge referencing present
node ids, reset_ids renumbers node ids and edge ids to 0..n-1 in row order,
rewrites from_id and to_id through the old-to-new map, preserves all non-id
payloads, and preserves connectivity: each rewritten endpoint reference still
selects a node with the same geometry as before. -/
theorem C8_reset_ids_roundtrip {γ δ : Type} (nodes : List (RNode γ)) (edges : List (REdge δ))
    (hnd : (nodes.map (fun nd => nd.id)).Nodup)
    (href : ∀ e ∈ edges, e.from_id ∈ nodes.map (fun nd => nd.id) ∧
      e.to_id ∈ nodes.map (fun nd => nd.id)) :
    ((reset_ids nodes edges).1.map (fun nd => nd.id) =
      (List.range nodes.length).map (fun i : ℕ => (i : ℤ))) ∧
    ((reset_ids nodes edges).2.map (fun e => e.id) =
      (List.range edges.length).map (fun i : ℕ => (i : ℤ))) ∧
    ((reset_ids nodes edges).1.map (fun nd => nd.geom) = nodes.map (fun nd => nd.geom)) ∧
    ((reset_ids nodes edges).2.map (fun e => e.geom) = edges.map (fun e => e.geom)) ∧
    (∀ pair ∈ edges.zip (reset_ids nodes edges).2,
      node_geom_of_id (reset_ids nodes edges).1 pair.2.from_id =
        node_geom_of_id nodes pair.1.from_id ∧
      node_geom_of_id (reset_ids nodes edges).1 pair.2.to_id =
        node_geom_of_id nodes pair.1.to_id) := by
  refine ⟨?_, ?_, ?_, ?_, ?_⟩
  · apply List.ext_getElem
      (by simp only [reset_ids, List.length_map, List.length_mapIdx, List.length_range])
    intro i h1 h2
    simp only [reset_ids, List.getElem_map, List.getElem_mapIdx, List.getElem_range]
  · apply List.ext_getElem
      (by simp only [reset_ids, List.length_map, List.length_mapIdx, List.length_range])
    intro i h1 h2
    simp only [reset_ids, List.getElem_map, List.getElem_mapIdx, List.getElem_range]
  · apply List.ext_getElem
      (by simp only [reset_ids, List.length_map, List.length_mapIdx])
    intro i h1 h2
    simp only [reset_ids, List.getElem_map, List.getElem_mapIdx]
  · apply List.ext_getElem
      (by simp only [reset_ids, List.length_map, List.length_mapIdx])
    intro i h1 h2
    simp only [reset_ids, List.getElem_map, List.getElem_mapIdx]
  · intro pair hpair
    obtain ⟨i, hi, hpi⟩ := List.mem_iff_getElem.mp hpair
    have hlen2 : (reset_ids nodes edges).2.length = edges.length := by
      simp [reset_ids]
    have hi1 : i < edges.length := by
      have := hi
      simp only [List.length_zip, hlen2, min_self] at this
      exact this
    have hi2 : i < (reset_ids nodes edges).2.length := by rw [hlen2]; exact hi1
    have hpair_eq : pair = (edges[i], (reset_ids nodes edges).2[i]) := by
      rw [← hpi]
      exact List.getElem_zip
    have he2 : (reset_ids nodes edges).2[i] =
        { edges[i] with
          id := (i : ℤ)
          from_id := remap_ref nodes (edges[i]).from_id
          to_id := remap_ref nodes (edges[i]).to_id } := by
      simp [reset_ids, List.getElem_mapIdx]
    have hmem : edges[i] ∈ edges := List.getElem_mem hi1
    obtain ⟨hf, ht⟩ := href (edges[i]) hmem
    subst hpair_eq
    constructor
    · rw [he2]
      exact remap_ref_geom nodes hnd (edges[i]).from_id hf
    · rw [he2]
      exact remap_ref_geom nodes hnd (edges[i]).to_id ht

/-- C8 witness: two nodes with ids 5 and 2, one edge from 2 to 5; after
reset_ids the node ids are 0, 1, the edge references are rewritten, payloads
and connectivity are preserved. -/
theorem C8_reset_ids_roundtrip_witness :
    ((reset_ids [⟨5, (0 : ℚ)⟩, ⟨2, (1 : ℚ)⟩] [⟨7, 2, 5, (9 : ℚ)⟩]).1.map
        (fun nd => nd.id) = (List.range 2).map (fun i : ℕ => (i : ℤ))) ∧
    ((reset_ids [⟨5, (0 : ℚ)⟩, ⟨2, (1 : ℚ)⟩] [⟨7, 2, 5, (9 : ℚ)⟩]).2.map
        (fun e => e.id) = (List.range 1).map (fun i : ℕ => (i : ℤ))) ∧
    ((reset_ids [⟨5, (0 : ℚ)⟩, ⟨2, (1 : ℚ)⟩] [⟨7, 2, 5, (9 : ℚ)⟩]).1.map
        (fun nd => nd.geom) = ([⟨5, (0 : ℚ)⟩, ⟨2, (1 : ℚ)⟩] : List (RNode ℚ)).map
        (fun nd => nd.geom)) ∧
    ((reset_ids [⟨5, (0 : ℚ)⟩, ⟨2, (1 : ℚ)⟩] [⟨7, 2, 5, (9 : ℚ)⟩]).2.map
        (fun e => e.geom) = ([⟨7, 2, 5, (9 : ℚ)⟩] : List (REdge ℚ)).map
        (fun e => e.geom)) ∧
    (∀ pair ∈ ([⟨7, 2, 5, (9 : ℚ)⟩] : List (REdge ℚ)).zip
        (reset_ids [⟨5, (0 : ℚ)⟩, ⟨2, (1 : ℚ)⟩] [⟨7, 2, 5, (9 : ℚ)⟩]).2,
      node_geom_of_id (reset_ids [⟨5, (0 : ℚ)⟩, ⟨2, (1 : ℚ)⟩] [⟨7, 2, 5, (9 : ℚ)⟩]).1
          pair.2.from_id = node_geom_of_id [⟨5, (0 : ℚ)⟩, ⟨2, (1 : ℚ)⟩] pair.1.from_id ∧
      node_geom_of_id (reset_ids [⟨5, (0 : ℚ)⟩, ⟨2, (1 : ℚ)⟩] [⟨7, 2, 5, (9 : ℚ)⟩]).1
          pair.2.to_id = node_geom_of_id [⟨5, (0 : ℚ)⟩, ⟨2, (1 : ℚ)⟩] pair.1.to_id) :=
  C8_reset_ids_roundtrip [⟨5, (0 : ℚ)⟩, ⟨2, (1 : ℚ)⟩] [⟨7, 2, 5, (9 : ℚ)⟩]
    (by decide) (by decide)

/-! ## Final consistency pass: merge_all_multi and quickFix
(simplify.py lines 233-242 and 1209-1227) -/

/-- A geometry that may be a single LineString or a multi-part line, as the
final pipeline stages distinguish them through pygeos type ids and part
counts. -/
inductive GeomM where
  | line (g : Geom)
  | multi (gs : List Geom)
deriving DecidableEq

/-- pygeos.get_num_geometries: one for a LineString, the part count for a
multi-part geometry. -/
def get_num_geometries : GeomM → ℕ
  | GeomM.line _ => 1
  | GeomM.multi gs => gs.length

/-- Guard of source line_merge (line 234): get_type_id(x) compared with a
one-character string.  get_type_id returns an integer, and an integer never
equals a string in Python, so the comparison is false for every geometry. -/
def type_id_equals_multi_string : GeomM → Bool := fun _ => false

/-- Source line_merge (lines 233-236): merge through the pygeos line merger
(collaborator lm) when the string-typed guard holds, otherwise return the
geometry unchanged; by the guard above the merge branch is unreachable. -/
def line_merge (lm : List Geom → GeomM) (x : GeomM) : GeomM :=
  if type_id_equals_multi_string x then
    match x with
    | GeomM.multi gs => lm gs
    | y => y
  else x

/-- Source merge_all_multi (lines 239-242): apply line_merge to the geometry
column only; ids and references are untouched. -/
def merge_all_multi (lm : List Geom → GeomM) (edges : List (REdge GeomM)) :
    List (REdge GeomM) :=
  edges.map (fun e => { e with geom := line_merge lm e.geom })

/-- Python max over the node id column; the source applies it to a nonempty
node table (max of an empty sequence would raise). -/
def max_id {γ : Type} (nodes : List (RNode γ)) : ℤ :=
  match nodes.map (fun nd => nd.id) with
  | [] => 0
  | i :: rest => rest.foldl max i

/-- Removal list of source quickFix: ids of edges whose geometry has a part
count other than one or whose from_id or to_id exceeds the maximum node
id. -/
def quickFix_rem {γ : Type} (nodes : List (RNode γ)) (edges : List (REdge GeomM)) :
    List ℤ :=
  (edges.filter (fun e => decide (get_num_geometries e.geom ≠ 1 ∨
    max_id nodes < e.from_id ∨ max_id nodes < e.to_id))).map (fun e => e.id)

/-- Source quickFix (lines 1209-1227): drop every edge carrying a collected
id, reassign dense edge ids; the node table is returned untouched. -/
def quickFix {γ : Type} (nodes : List (RNode γ)) (edges : List (REdge GeomM)) :
    List (REdge GeomM) :=
  (edges.filter (fun e => decide (e.id ∉ quickFix_rem nodes edges))).mapIdx
    (fun i e => { e with id := (i : ℤ) })

/-- Tail of simplify_network_from_gdf that decides edge-to-node references:
reset_ids, then merge_all_multi, then quickFix.  The interleaved
add_distances, logicCheck and add_travel_time stages only add or inspect
non-id columns. -/
def pipeline_tail {γ : Type} (lm : List Geom → GeomM) (nodes : List (RNode γ))
    (edges : List (REdge GeomM)) : List (RNode γ) × List (REdge GeomM) :=
  ((reset_ids nodes edges).1,
   quickFix (reset_ids nodes edges).1 (merge_all_multi lm (reset_ids nodes edges).2))

/-! ### Lemmas for the pipeline tail -/

lemma reset_ids_node_ids {γ δ : Type} (nodes : List (RNode γ)) (edges : List (REdge δ)) :
    (reset_ids nodes edges).1.map (fun nd => nd.id) =
      (List.range nodes.length).map (fun i : ℕ => (i : ℤ)) := by
  apply List.ext_getElem
    (by simp only [reset_ids, List.length_map, List.length_mapIdx, List.length_range])
  intro i h1 h2
  simp only [reset_ids, List.getElem_map, List.getElem_mapIdx, List.getElem_range]

lemma foldl_max_le (l : List ℤ) (a b : ℤ) (ha : a ≤ b) (hl : ∀ x ∈ l, x ≤ b) :
    l.foldl max a ≤ b := by
  induction l generalizing a with
  | nil => exact ha
  | cons x rest ih =>
    exact ih (max a x) (max_le ha (hl x (by simp))) (fun y hy => hl y (by simp [hy]))

lemma max_id_le {γ : Type} (nodes : List (RNode γ)) (b : ℤ) (hne : nodes ≠ [])
    (h : ∀ nd ∈ nodes, nd.id ≤ b) : max_id nodes ≤ b := by
  cases nodes with
  | nil => exact absurd rfl hne
  | cons nd rest =>
    have : max_id (nd :: rest) = (rest.map (fun x => x.id)).foldl max nd.id := by
      simp [max_id]
    rw [this]
    apply foldl_max_le _ _ _ (h nd (by simp))
    intro x hx
    obtain ⟨y, hy, hxy⟩ := List.mem_map.mp hx
    rw [← hxy]
    exact h y (by simp [hy])

lemma reset_ids_node_id_bound {γ δ : Type} (nodes : List (RNode γ)) (edges : List (REdge δ)) :
    ∀ nd ∈ (reset_ids nodes edges).1, nd.id ≤ (nodes.length : ℤ) - 1 := by
  intro nd hnd
  obtain ⟨i, hi, heq⟩ := List.mem_iff_getElem.mp hnd
  have hlen : i < nodes.length := by simpa [reset_ids] using hi
  have : nd.id = (i : ℤ) := by
    rw [← heq]
    simp [reset_ids, List.getElem_mapIdx]
  rw [this]
  omega

lemma remap_ref_nonneg {γ : Type} (nodes : List (RNode γ)) (x : ℤ) (hx : 0 ≤ x) :
    0 ≤ remap_ref nodes x := by
  unfold remap_ref
  rcases h : id_dict nodes x with _ | v
  · simpa [h] using hx
  · simp [h]

lemma reset_ids_edge_nonneg {γ δ : Type} (nodes : List (RNode γ)) (edges : List (REdge δ))
    (hnn : ∀ e ∈ edges, 0 ≤ e.from_id ∧ 0 ≤ e.to_id) :
    ∀ e ∈ (reset_ids nodes edges).2, 0 ≤ e.from_id ∧ 0 ≤ e.to_id := by
  intro e he
  obtain ⟨i, hi, heq⟩ := List.mem_iff_getElem.mp he
  have hlen : i < edges.length := by simpa [reset_ids] using hi
  have he' : e = { edges[i] with
      id := (i : ℤ)
      from_id := remap_ref nodes (edges[i]).from_id
      to_id := remap_ref nodes (edges[i]).to_id } := by
    rw [← heq]
    simp [reset_ids, List.getElem_mapIdx]
  obtain ⟨h1, h2⟩ := hnn (edges[i]) (List.getElem_mem hlen)
  rw [he']
  exact ⟨remap_ref_nonneg nodes _ h1, remap_ref_nonneg nodes _ h2⟩

lemma merge_all_multi_refs (lm : List Geom → GeomM) (edges : List (REdge GeomM)) :
    ∀ e ∈ merge_all_multi lm edges, ∃ e₀ ∈ edges,
      e.from_id = e₀.from_id ∧ e.to_id = e₀.to_id := by
  intro e he
  obtain ⟨e₀, hm, heq⟩ := List.mem_map.mp he
  exact ⟨e₀, hm, by rw [← heq], by rw [← heq]⟩

lemma quickFix_refs {γ : Type} (nodes : List (RNode γ)) (edges : List (REdge GeomM)) :
    ∀ e ∈ quickFix nodes edges, ∃ e₀ ∈ edges,
      e.from_id = e₀.from_id ∧ e.to_id = e₀.to_id ∧
      e₀.from_id ≤ max_id nodes ∧ e₀.to_id ≤ max_id nodes := by
  intro e he
  unfold quickFix at he
  obtain ⟨i, hi, heq⟩ := List.mem_iff_getElem.mp he
  have hilen : i < (edges.filter
      (fun e => decide (e.id ∉ quickFix_rem nodes edges))).length := by
    simpa using hi
  have he' : e = { (edges.filter
      (fun e => decide (e.id ∉ quickFix_rem nodes edges)))[i] with id := (i : ℤ) } := by
    rw [← heq]
    simp [List.getElem_mapIdx]
  have hker : (edges.filter (fun e => decide (e.id ∉ quickFix_rem nodes edges)))[i] ∈
      edges.filter (fun e => decide (e.id ∉ quickFix_rem nodes edges)) :=
    List.getElem_mem hilen
  have hmemf := List.mem_filter.mp hker
  have hnotrem : ¬ (((edges.filter
      (fun e => decide (e.id ∉ quickFix_rem nodes edges)))[i]).id ∈
      quickFix_rem nodes edges) := by
    intro hin
    have hdec := hmemf.2
    simp only [decide_eq_true_eq] at hdec
    exact hdec hin
  refine ⟨(edges.filter (fun e => decide (e.id ∉ quickFix_rem nodes edges)))[i],
    hmemf.1, by rw [he'], by rw [he'], ?_, ?_⟩
  · by_contra hgt
    push_neg at hgt
    apply hnotrem
    unfold quickFix_rem
    refine List.mem_map.mpr ⟨_, List.mem_filter.mpr ⟨hmemf.1, ?_⟩, rfl⟩
    simp only [decide_eq_true_eq]
    exact Or.inr (Or.inl hgt)
  · by_contra hgt
    push_neg at hgt
    apply hnotrem
    unfold quickFix_rem
    refine List.mem_map.mpr ⟨_, List.mem_filter.mpr ⟨hmemf.1, ?_⟩, rfl⟩
    simp only [decide_eq_true_eq]
    exact Or.inr (Or.inr hgt)

/-- C1: in the pipeline tail that fixes the output references (reset_ids then
merge_all_multi then quickFix), every surviving edge's from_id and to_id are
ids present in the returned node table, for every input network with a
nonempty node table and non-negative edge references (as topology building
guarantees by dropping unresolved edges). -/
theorem C1_pipeline_refs_in_node_ids {γ : Type} (lm : List Geom → GeomM)
    (nodes : List (RNode γ)) (edges : List (REdge GeomM))
    (hne : nodes ≠ [])
    (hnn : ∀ e ∈ edges, 0 ≤ e.from_id ∧ 0 ≤ e.to_id) :
    ∀ e ∈ (pipeline_tail lm nodes edges).2,
      e.from_id ∈ (pipeline_tail lm nodes edges).1.map (fun nd => nd.id) ∧
      e.to_id ∈ (pipeline_tail lm nodes edges).1.map (fun nd => nd.id) := by
  intro e he
  have hids : (pipeline_tail lm nodes edges).1.map (fun nd => nd.id) =
      (List.range nodes.length).map (fun i : ℕ => (i : ℤ)) := by
    unfold pipeline_tail
    exact reset_ids_node_ids nodes edges
  have hn1ne : (reset_ids nodes edges).1 ≠ [] := by
    intro hcontra
    apply hne
    have : (reset_ids nodes edges).1.length = nodes.length := by simp [reset_ids]
    rw [hcontra] at this
    exact List.eq_nil_of_length_eq_zero this.symm
  have hmax : max_id (reset_ids nodes edges).1 ≤ (nodes.length : ℤ) - 1 :=
    max_id_le _ _ hn1ne (reset_ids_node_id_bound nodes edges)
  obtain ⟨e₀, hm0, hf0, ht0, hfb, htb⟩ :=
    quickFix_refs (reset_ids nodes edges).1 (merge_all_multi lm (reset_ids nodes edges).2) e he
  obtain ⟨e₁, hm1, hf1, ht1⟩ :=
    merge_all_multi_refs lm (reset_ids nodes edges).2 e₀ hm0
  obtain ⟨hfn, htn⟩ := reset_ids_edge_nonneg nodes edges hnn e₁ hm1
  have hmem : ∀ k : ℤ, 0 ≤ k → k ≤ (nodes.length : ℤ) - 1 →
      k ∈ (List.range nodes.length).map (fun i : ℕ => (i : ℤ)) := by
    intro k hk0 hk1
    refine List.mem_map.mpr ⟨k.toNat, List.mem_range.mpr (by omega), Int.toNat_of_nonneg hk0⟩
  rw [hids]
  constructor
  · rw [hf0, hf1]
    exact hmem e₁.from_id hfn (by rw [← hf1]; exact le_trans hfb hmax)
  · rw [ht0, ht1]
    exact hmem e₁.to_id htn (by rw [← ht1]; exact le_trans htb hmax)

/-- C1 witness: one node, one edge whose references are in range; the tail
keeps the edge and its references are node ids of the concrete output. -/
theorem C1_pipeline_refs_in_node_ids_witness :
    (⟨0, 0, 0, GeomM.line []⟩ : REdge GeomM).from_id ∈
      (pipeline_tail (fun _ => GeomM.line []) [(⟨0, (0 : ℚ)⟩ : RNode ℚ)]
        [⟨0, 0, 0, GeomM.line []⟩]).1.map (fun nd => nd.id) ∧
    (⟨0, 0, 0, GeomM.line []⟩ : REdge GeomM).to_id ∈
      (pipeline_tail (fun _ => GeomM.line []) [(⟨0, (0 : ℚ)⟩ : RNode ℚ)]
        [⟨0, 0, 0, GeomM.line []⟩]).1.map (fun nd => nd.id) :=
  C1_pipeline_refs_in_node_ids (fun _ => GeomM.line []) [⟨0, (0 : ℚ)⟩]
    [⟨0, 0, 0, GeomM.line []⟩] (by decide) (by decide) ⟨0, 0, 0, GeomM.line []⟩ (by decide)

/-! ## Topology builder: add_topology (simplify.py lines 120-153, with
nearest_node / nearest from lines 807-828 and line_endpoints from 867-874) -/

/-- A node row at topology-building time: id and point geometry. -/
structure TNode where
  id : ℤ
  geom : Pt
deriving DecidableEq

/-- An edge row before topology: id and line geometry. -/
structure TEdge where
  id : ℤ
  geom : Geom
deriving DecidableEq

/-- An edge row after topology: id, endpoint references and line geometry. -/
structure TEdge2 where
  id : ℤ
  from_id : ℤ
  to_id : ℤ
  geom : Geom
deriving DecidableEq

/-- STRtree query of a point against the node point geometries: the bounding
box of a point is degenerate, so a candidate node box intersects it exactly
when the node has the same coordinates. -/
def strtree_point_query (nodes : List TNode) (p : Pt) : List TNode :=
  nodes.filter (fun nd => nd.geom = p)

/-- Source nearest (lines 817-828) specialised to the node table, as
nearest_node calls it: minimum by distance over the candidates of the index
query.  Python min raises on an empty candidate list (the caller catches it
and records a bug), modelled as none. -/
def nearest_node (p : Pt) (nodes : List TNode) : Option TNode :=
  (strtree_point_query nodes p).argmin (fun nd => sqDist nd.geom p)

/-- Source line_endpoints (lines 867-874): first and last vertex. -/
def line_endpoints (g : Geom) : Pt × Pt := (g.headD (0, 0), g.getLastD (0, 0))

/-- Whether the start-vertex lookup of an edge fails. -/
def start_unresolved (nodes : List TNode) (e : TEdge) : Bool :=
  match nearest_node (line_endpoints e.geom).1 nodes with
  | none => true
  | some _ => false

/-- Whether the end-vertex lookup of an edge fails. -/
def end_unresolved (nodes : List TNode) (e : TEdge) : Bool :=
  match nearest_node (line_endpoints e.geom).2 nodes with
  | none => true
  | some _ => false

/-- An edge is defective when at least one endpoint fails to resolve. -/
def edge_defective (nodes : List TNode) (e : TEdge) : Bool :=
  start_unresolved nodes e || end_unresolved nodes e

/-- Reference value recorded by the add_topology loop for one endpoint: the
resolved node's id, or -1 on lookup failure. -/
def resolved_id (o : Option TNode) : ℤ :=
  match o with
  | some nd => nd.id
  | none => -1

/-- Row of the edges table after the column assignment of add_topology. -/
def assign_topology (nodes : List TNode) (e : TEdge) : TEdge2 :=
  ⟨e.id, resolved_id (nearest_node (line_endpoints e.geom).1 nodes),
    resolved_id (nearest_node (line_endpoints e.geom).2 nodes), e.geom⟩

/-- Bug-list entries the add_topology loop records for one edge: the edge id
once per failing endpoint, start first. -/
def bug_events (nodes : List TNode) (e : TEdge) : List ℤ :=
  (if start_unresolved nodes e then [e.id] else []) ++
    (if end_unresolved nodes e then [e.id] else [])

/-- Accumulator of the add_topology loop: the from_id column, the to_id
column and the bug list collected so far. -/
structure TopoAcc where
  from_ids : List ℤ
  to_ids : List ℤ
  bugs : List ℤ
deriving DecidableEq

/-- One iteration of the add_topology loop (lines 128-142): try the start
lookup, appending the id or recording a bug with a -1 reference, then the
same for the end lookup. -/
def add_topology_step (nodes : List TNode) (acc : TopoAcc) (edge : TEdge) : TopoAcc :=
  let acc1 :=
    match nearest_node (line_endpoints edge.geom).1 nodes with
    | some nd => { acc with from_ids := acc.from_ids ++ [nd.id] }
    | none => { acc with
        from_ids := acc.from_ids ++ [-1]
        bugs := acc.bugs ++ [edge.id] }
  match nearest_node (line_endpoints edge.geom).2 nodes with
  | some nd => { acc1 with to_ids := acc1.to_ids ++ [nd.id] }
  | none => { acc1 with
      to_ids := acc1.to_ids ++ [-1]
      bugs := acc1.bugs ++ [edge.id] }

/-- Source add_topology: run the loop, report the bug list length, assign the
from_id and to_id columns, drop the edges whose id is in the bug list, and
return the node table untouched.  Result: (surviving edges, reported count,
nodes). -/
def add_topology (nodes : List TNode) (edges : List TEdge) :
    List TEdge2 × ℕ × List TNode :=
  let acc := edges.foldl (add_topology_step nodes) ⟨[], [], []⟩
  let edges2 := (edges.zip (acc.from_ids.zip acc.to_ids)).map
    (fun p => TEdge2.mk p.1.id p.2.1 p.2.2 p.1.geom)
  (edges2.filter (fun e => decide (e.id ∉ acc.bugs)), acc.bugs.length, nodes)

/-! ### Lemmas for add_topology -/

lemma nearest_node_mem (p : Pt) (nodes : List TNode) (nd : TNode)
    (h : nearest_node p nodes = some nd) : nd ∈ nodes := by
  have hm : nd ∈ strtree_point_query nodes p := List.argmin_mem h
  exact (List.mem_filter.mp hm).1

lemma add_topology_step_eq (nodes : List TNode) (acc : TopoAcc) (e : TEdge) :
    add_topology_step nodes acc e =
      ⟨acc.from_ids ++ [resolved_id (nearest_node (line_endpoints e.geom).1 nodes)],
       acc.to_ids ++ [resolved_id (nearest_node (line_endpoints e.geom).2 nodes)],
       acc.bugs ++ bug_events nodes e⟩ := by
  unfold add_topology_step bug_events start_unresolved end_unresolved resolved_id
  rcases h1 : nearest_node (line_endpoints e.geom).1 nodes with _ | nd1 <;>
    rcases h2 : nearest_node (line_endpoints e.geom).2 nodes with _ | nd2 <;>
    simp [h1, h2]

lemma add_topology_fold (nodes : List TNode) (edges : List TEdge) : ∀ acc : TopoAcc,
    edges.foldl (add_topology_step nodes) acc =
      ⟨acc.from_ids ++ edges.map
          (fun e => resolved_id (nearest_node (line_endpoints e.geom).1 nodes)),
        acc.to_ids ++ edges.map
          (fun e => resolved_id (nearest_node (line_endpoints e.geom).2 nodes)),
        acc.bugs ++ edges.flatMap (bug_events nodes)⟩ := by
  induction edges with
  | nil => intro acc; simp
  | cons e rest ih =>
    intro acc
    rw [List.foldl_cons, add_topology_step_eq, ih]
    simp

lemma bug_events_length (nodes : List TNode) (e : TEdge) :
    (bug_events nodes e).length =
      (if start_unresolved nodes e then 1 else 0) +
        (if end_unresolved nodes e then 1 else 0) := by
  unfold bug_events
  by_cases h1 : start_unresolved nodes e <;> by_cases h2 : end_unresolved nodes e <;>
    simp [h1, h2]

lemma flatMap_bug_length (nodes : List TNode) (edges : List TEdge) :
    (edges.flatMap (bug_events nodes)).length =
      edges.countP (start_unresolved nodes) + edges.countP (end_unresolved nodes) := by
  induction edges with
  | nil => simp
  | cons e rest ih =>
    rw [List.flatMap_cons, List.length_append, bug_events_length, ih,
      List.countP_cons, List.countP_cons]
    by_cases h1 : start_unresolved nodes e <;> by_cases h2 : end_unresolved nodes e <;>
      simp [h1, h2] <;> omega

lemma mem_bug_events (nodes : List TNode) (e : TEdge) (x : ℤ)
    (hx : x ∈ bug_events nodes e) : x = e.id ∧ edge_defective nodes e = true := by
  unfold bug_events at hx
  unfold edge_defective
  rcases List.mem_append.mp hx with h | h
  · by_cases hs : start_unresolved nodes e
    · simp [hs] at h
      simp [h, hs]
    · simp [hs] at h
  · by_cases hs : end_unresolved nodes e
    · simp [hs] at h
      simp [h, hs]
    · simp [hs] at h

lemma mem_bugs_iff (nodes : List TNode) (edges : List TEdge)
    (hnd : (edges.map (fun e => e.id)).Nodup) (e : TEdge) (he : e ∈ edges) :
    e.id ∈ edges.flatMap (bug_events nodes) ↔ edge_defective nodes e = true := by
  constructor
  · intro hin
    obtain ⟨e', he', hbe⟩ := List.mem_flatMap.mp hin
    obtain ⟨hid, hdef⟩ := mem_bug_events nodes e' e.id hbe
    have heq : e' = e := List.inj_on_of_nodup_map hnd he' he hid.symm
    rw [← heq]
    exact hdef
  · intro hdef
    refine List.mem_flatMap.mpr ⟨e, he, ?_⟩
    unfold edge_defective at hdef
    unfold bug_events
    rcases Bool.or_eq_true_iff.mp hdef with hs | hs
    · exact List.mem_append.mpr (Or.inl (by simp [hs]))
    · exact List.mem_append.mpr (Or.inr (by simp [hs]))

lemma add_topology_cols (nodes : List TNode) (edges : List TEdge) :
    (edges.zip
      (((edges.foldl (add_topology_step nodes) ⟨[], [], []⟩).from_ids).zip
        ((edges.foldl (add_topology_step nodes) ⟨[], [], []⟩).to_ids))).map
      (fun p => TEdge2.mk p.1.id p.2.1 p.2.2 p.1.geom) =
      edges.map (assign_topology nodes) := by
  rw [add_topology_fold nodes edges ⟨[], [], []⟩]
  apply List.ext_getElem
  · simp
  · intro i h1 h2
    have hi : i < edges.length := by simpa using h2
    have hz : i < (edges.zip
        ((edges.map (fun e => resolved_id (nearest_node (line_endpoints e.geom).1 nodes))).zip
          (edges.map (fun e => resolved_id (nearest_node (line_endpoints e.geom).2 nodes))))).length := by
      simp
      exact hi
    simp only [List.getElem_map, List.getElem_zip, List.nil_append]
    unfold assign_topology
    rfl

/-- C4 counterexample: one edge neither of whose endpoints matches any node;
the single defective edge is reported with count two (once per failing
endpoint), not once per defective edge as the claim states. -/
theorem C4_add_topology_counterexample :
    (add_topology [⟨0, ((0 : ℚ), (0 : ℚ))⟩]
        [⟨0, [((5 : ℚ), (5 : ℚ)), ((6 : ℚ), (6 : ℚ))]⟩]).2.1 = 2 ∧
    ([⟨0, [((5 : ℚ), (5 : ℚ)), ((6 : ℚ), (6 : ℚ))]⟩] : List TEdge).countP
      (edge_defective [⟨0, ((0 : ℚ), (0 : ℚ))⟩]) = 1 ∧ (2 : ℕ) ≠ 1 :=
  ⟨by decide, by decide, by decide⟩

/-- C4 amended: add_topology drops exactly the edges with an unresolved
endpoint (given unique edge ids), reports the count of unresolved endpoint
lookups (so an edge with both endpoints unresolved is counted twice), leaves
the node table untouched, and every surviving edge's from_id and to_id are
ids of nodes in the table. -/
theorem C4_add_topology_amended (nodes : List TNode) (edges : List TEdge)
    (hnd : (edges.map (fun e => e.id)).Nodup) :
    (add_topology nodes edges).1 =
      (edges.filter (fun e => ! edge_defective nodes e)).map (assign_topology nodes) ∧
    (add_topology nodes edges).2.1 =
      edges.countP (start_unresolved nodes) + edges.countP (end_unresolved nodes) ∧
    (add_topology nodes edges).2.2 = nodes ∧
    (∀ e2 ∈ (add_topology nodes edges).1,
      e2.from_id ∈ nodes.map (fun nd => nd.id) ∧
      e2.to_id ∈ nodes.map (fun nd => nd.id)) := by
  have hcols := add_topology_cols nodes edges
  have hbugs : (edges.foldl (add_topology_step nodes) ⟨[], [], []⟩).bugs =
      edges.flatMap (bug_events nodes) := by
    rw [add_topology_fold nodes edges ⟨[], [], []⟩]
    simp
  have hfirst : (add_topology nodes edges).1 =
      (edges.filter (fun e => ! edge_defective nodes e)).map (assign_topology nodes) := by
    show ((edges.zip _).map _).filter _ = _
    rw [hcols, hbugs, List.filter_map]
    congr 1
    apply List.filter_congr
    intro e he
    show decide ((assign_topology nodes e).id ∉ edges.flatMap (bug_events nodes)) = _
    have hid : (assign_topology nodes e).id = e.id := rfl
    rw [hid]
    by_cases hdef : edge_defective nodes e = true
    · simp [hdef, (mem_bugs_iff nodes edges hnd e he).mpr hdef]
    · have : e.id ∉ edges.flatMap (bug_events nodes) := by
        intro hin
        exact hdef ((mem_bugs_iff nodes edges hnd e he).mp hin)
      simp [this, Bool.eq_false_iff.mpr hdef]
  refine ⟨hfirst, ?_, rfl, ?_⟩
  · show (edges.foldl (add_topology_step nodes) ⟨[], [], []⟩).bugs.length = _
    rw [hbugs]
    exact flatMap_bug_length nodes edges
  · intro e2 he2
    rw [hfirst] at he2
    obtain ⟨e, hef, heq⟩ := List.mem_map.mp he2
    have hmemf := List.mem_filter.mp hef
    have hndef : edge_defective nodes e = false := by
      have := hmemf.2
      simp at this
      exact this
    have hs : start_unresolved nodes e = false := by
      unfold edge_defective at hndef
      exact (Bool.or_eq_false_iff.mp hndef).1
    have ht : end_unresolved nodes e = false := by
      unfold edge_defective at hndef
      exact (Bool.or_eq_false_iff.mp hndef).2
    constructor
    · rcases hn : nearest_node (line_endpoints e.geom).1 nodes with _ | nd
      · rw [start_unresolved, hn] at hs
        simp at hs
      · have hfrom : e2.from_id = nd.id := by
          rw [← heq]
          show resolved_id (nearest_node (line_endpoints e.geom).1 nodes) = nd.id
          rw [hn]
          rfl
        rw [hfrom]
        exact List.mem_map.mpr ⟨nd, nearest_node_mem _ nodes nd hn, rfl⟩
    · rcases hn : nearest_node (line_endpoints e.geom).2 nodes with _ | nd
      · rw [end_unresolved, hn] at ht
        simp at ht
      · have hto : e2.to_id = nd.id := by
          rw [← heq]
          show resolved_id (nearest_node (line_endpoints e.geom).2 nodes) = nd.id
          rw [hn]
          rfl
        rw [hto]
        exact List.mem_map.mpr ⟨nd, nearest_node_mem _ nodes nd hn, rfl⟩

/-- C4 witness: two nodes at the origin and (1, 1); edge 0 resolves at both
endpoints, edge 1 fails at its far endpoint, so one lookup is reported and
only edge 0 survives, with valid references. -/
theorem C4_add_topology_amended_witness :
    ((add_topology [⟨0, ((0 : ℚ), (0 : ℚ))⟩, ⟨1, ((1 : ℚ), (1 : ℚ))⟩]
        [⟨0, [((0 : ℚ), (0 : ℚ)), ((1 : ℚ), (1 : ℚ))]⟩,
          ⟨1, [((0 : ℚ), (0 : ℚ)), ((7 : ℚ), (7 : ℚ))]⟩]).1 =
      (([⟨0, [((0 : ℚ), (0 : ℚ)), ((1 : ℚ), (1 : ℚ))]⟩,
          ⟨1, [((0 : ℚ), (0 : ℚ)), ((7 : ℚ), (7 : ℚ))]⟩] : List TEdge).filter
        (fun e => ! edge_defective [⟨0, ((0 : ℚ), (0 : ℚ))⟩, ⟨1, ((1 : ℚ), (1 : ℚ))⟩] e)).map
        (assign_topology [⟨0, ((0 : ℚ), (0 : ℚ))⟩, ⟨1, ((1 : ℚ), (1 : ℚ))⟩])) ∧
    ((add_topology [⟨0, ((0 : ℚ), (0 : ℚ))⟩, ⟨1, ((1 : ℚ), (1 : ℚ))⟩]
        [⟨0, [((0 : ℚ), (0 : ℚ)), ((1 : ℚ), (1 : ℚ))]⟩,
          ⟨1, [((0 : ℚ), (0 : ℚ)), ((7 : ℚ), (7 : ℚ))]⟩]).2.1 =
      ([⟨0, [((0 : ℚ), (0 : ℚ)), ((1 : ℚ), (1 : ℚ))]⟩,
          ⟨1, [((0 : ℚ), (0 : ℚ)), ((7 : ℚ), (7 : ℚ))]⟩] : List TEdge).countP
        (start_unresolved [⟨0, ((0 : ℚ), (0 : ℚ))⟩, ⟨1, ((1 : ℚ), (1 : ℚ))⟩]) +
      ([⟨0, [((0 : ℚ), (0 : ℚ)), ((1 : ℚ), (1 : ℚ))]⟩,
          ⟨1, [((0 : ℚ), (0 : ℚ)), ((7 : ℚ), (7 : ℚ))]⟩] : List TEdge).countP
        (end_unresolved [⟨0, ((0 : ℚ), (0 : ℚ))⟩, ⟨1, ((1 : ℚ), (1 : ℚ))⟩])) ∧
    ((add_topology [⟨0, ((0 : ℚ), (0 : ℚ))⟩, ⟨1, ((1 : ℚ), (1 : ℚ))⟩]
        [⟨0, [((0 : ℚ), (0 : ℚ)), ((1 : ℚ), (1 : ℚ))]⟩,
          ⟨1, [((0 : ℚ), (0 : ℚ)), ((7 : ℚ), (7 : ℚ))]⟩]).2.2 =
      [⟨0, ((0 : ℚ), (0 : ℚ))⟩, ⟨1, ((1 : ℚ), (1 : ℚ))⟩]) ∧
    (∀ e2 ∈ (add_topology [⟨0, ((0 : ℚ), (0 : ℚ))⟩, ⟨1, ((1 : ℚ), (1 : ℚ))⟩]
        [⟨0, [((0 : ℚ), (0 : ℚ)), ((1 : ℚ), (1 : ℚ))]⟩,
          ⟨1, [((0 : ℚ), (0 : ℚ)), ((7 : ℚ), (7 : ℚ))]⟩]).1,
      e2.from_id ∈ ([⟨0, ((0 : ℚ), (0 : ℚ))⟩, ⟨1, ((1 : ℚ), (1 : ℚ))⟩] : List TNode).map
        (fun nd => nd.id) ∧
      e2.to_id ∈ ([⟨0, ((0 : ℚ), (0 : ℚ))⟩, ⟨1, ((1 : ℚ), (1 : ℚ))⟩] : List TNode).map
        (fun nd => nd.id)) :=
  C4_add_topology_amended [⟨0, ((0 : ℚ), (0 : ℚ))⟩, ⟨1, ((1 : ℚ), (1 : ℚ))⟩]
    [⟨0, [((0 : ℚ), (0 : ℚ)), ((1 : ℚ), (1 : ℚ))]⟩,
      ⟨1, [((0 : ℚ), (0 : ℚ)), ((7 : ℚ), (7 : ℚ))]⟩] (by decide)

/-! ## Hanging-node pruner: drop_hanging_nodes (simplify.py lines 530-569) -/

/-- An edge row at pruning time: dense id, endpoint references (node
positions, as the source requires ids to be reset before degree work) and
geometry.  Edge length is computed by the pygeos length collaborator, a
function parameter elen below. -/
structure HEdge where
  id : ℤ
  from_id : ℤ
  to_id : ℤ
  geom : Geom
deriving DecidableEq, Inhabited

/-- Value of the degree array at a node id (numpy integer indexing; ids are
non-negative positions wherever the source uses this). -/
def degAt (deg : List ℤ) (i : ℤ) : ℤ := deg.getD i.toNat 0

/-- In-place decrement of the degree array at a node id. -/
def degDec (deg : List ℤ) (i : ℤ) : List ℤ := deg.set i.toNat (degAt deg i - 1)

/-- np.where(deg == 1): positions of the degree array holding one. -/
def hang_nodes (deg : List ℤ) : List ℕ :=
  (List.range deg.length).filter (fun i => deg.getD i 0 = 1)

/-- np.isin membership of a reference value in the hanging-node positions. -/
def is_hang (deg : List ℤ) (x : ℤ) : Bool :=
  (hang_nodes deg).any (fun i => (i : ℤ) = x)

/-- Candidate row positions (lines 539-544): positions of edges whose to_id
is hanging, then positions of edges whose from_id is hanging, concatenated
and sorted ascending; np.sort keeps duplicates, so an edge with both
endpoints hanging appears twice. -/
def cand_positions (deg : List ℤ) (edges : List HEdge) : List ℕ :=
  List.insertionSort (· ≤ ·)
    (((List.range edges.length).filter
      (fun i => is_hang deg (edges.getD i default).to_id)) ++
    ((List.range edges.length).filter
      (fun i => is_hang deg (edges.getD i default).from_id)))

/-- Candidate rows degEd in iteration order. -/
def cand_edges (deg : List ℤ) (edges : List HEdge) : List HEdge :=
  (cand_positions deg edges).map (fun i => edges.getD i default)

/-- One iteration of the pruning loop (lines 546-558) over the live state
(degree array, dropped rows so far): if the edge is shorter than the
tolerance, record the drop and decrement both endpoint degrees; then, if both
endpoints now have degree one, record the drop and decrement again.  The
source appends d.id to its drop list; recording the whole row d is the same
data (the final filter reads only the ids off the list). -/
def dh_step (tol : ℚ) (elen : Geom → ℚ) (st : List ℤ × List HEdge) (d : HEdge) :
    List ℤ × List HEdge :=
  let st1 := if elen d.geom < tol
    then (degDec (degDec st.1 d.from_id) d.to_id, st.2 ++ [d])
    else st
  if degAt st1.1 d.from_id = 1 ∧ degAt st1.1 d.to_id = 1
    then (degDec (degDec st1.1 d.from_id) d.to_id, st1.2 ++ [d])
    else st1

/-- The single pass over the candidate rows with the live degree array. -/
def dh_pass (tol : ℚ) (elen : Geom → ℚ) (deg : List ℤ) (edges : List HEdge) :
    List ℤ × List HEdge :=
  (cand_edges deg edges).foldl (dh_step tol elen) (deg, [])

/-- Source drop_hanging_nodes: run the pass, then keep the edges whose id is
not on the drop list, reassigning dense ids; the returned degree array is
written into the node table.  Components: final degrees, surviving edges. -/
def drop_hanging_nodes (tol : ℚ) (elen : Geom → ℚ) (deg : List ℤ)
    (edges : List HEdge) : List ℤ × List HEdge :=
  let st := dh_pass tol elen deg edges
  (st.1, (edges.filter (fun e => decide (e.id ∉ st.2.map (fun d => d.id)))).mapIdx
    (fun i e => { e with id := (i : ℤ) }))

/-! ### Lemmas for drop_hanging_nodes -/

lemma is_hang_spec (deg : List ℤ) (x : ℤ) (h : is_hang deg x = true) :
    degAt deg x = 1 ∧ 0 ≤ x ∧ x.toNat < deg.length := by
  unfold is_hang at h
  obtain ⟨i, hi, hx⟩ := List.any_eq_true.mp h
  have hx' : (i : ℤ) = x := of_decide_eq_true hx
  unfold hang_nodes at hi
  have h2 := List.mem_filter.mp hi
  have hlen : i < deg.length := List.mem_range.mp h2.1
  have hdeg : deg.getD i 0 = 1 := of_decide_eq_true h2.2
  rw [← hx']
  refine ⟨?_, by positivity, by simpa using hlen⟩
  unfold degAt
  rw [Int.toNat_natCast]
  exact hdeg

lemma degDec_length (deg : List ℤ) (i : ℤ) : (degDec deg i).length = deg.length :=
  List.length_set deg _ _

lemma getD_set_int (deg : List ℤ) (n : ℕ) (v : ℤ) (m : ℕ) :
    (deg.set n v).getD m 0 = if n = m ∧ n < deg.length then v else deg.getD m 0 := by
  rw [List.getD_eq_getElem?_getD, List.getElem?_set, List.getD_eq_getElem?_getD]
  by_cases h1 : n = m
  · subst h1
    by_cases h2 : n < deg.length
    · simp [h2]
    · simp [h2, List.getElem?_eq_none (le_of_not_lt h2)]
  · simp [h1]

lemma degAt_degDec_le (deg : List ℤ) (i x : ℤ) :
    degAt (degDec deg i) x ≤ degAt deg x := by
  unfold degDec degAt
  rw [getD_set_int]
  by_cases h : i.toNat = x.toNat ∧ i.toNat < deg.length
  · rw [if_pos h]
    rw [h.1]
    omega
  · rw [if_neg h]

lemma degAt_degDec_eq (deg : List ℤ) (i : ℤ) (hi0 : 0 ≤ i) (hilen : i.toNat < deg.length)
    (x : ℤ) (hx : 0 ≤ x) :
    degAt (degDec deg i) x = degAt deg x - (if i = x then 1 else 0) := by
  unfold degDec degAt
  rw [getD_set_int]
  by_cases hix : i = x
  · subst hix
    rw [if_pos ⟨rfl, hilen⟩, if_pos rfl]
  · have hcond : ¬ (i.toNat = x.toNat ∧ i.toNat < deg.length) := by
      intro hc
      exact hix (by omega)
    rw [if_neg hcond, if_neg hix]
    omega

lemma dh_step_deg_le (tol : ℚ) (elen : Geom → ℚ) (st : List ℤ × List HEdge) (d : HEdge)
    (x : ℤ) : degAt (dh_step tol elen st d).1 x ≤ degAt st.1 x := by
  unfold dh_step
  by_cases hl : elen d.geom < tol
  · simp only [if_pos hl]
    split
    · exact le_trans (le_trans (degAt_degDec_le _ _ _) (degAt_degDec_le _ _ _))
        (le_trans (degAt_degDec_le _ _ _) (degAt_degDec_le _ _ _))
    · exact le_trans (degAt_degDec_le _ _ _) (degAt_degDec_le _ _ _)
  · simp only [if_neg hl]
    split
    · exact le_trans (degAt_degDec_le _ _ _) (degAt_degDec_le _ _ _)
    · exact le_refl _

lemma dh_step_cases (tol : ℚ) (elen : Geom → ℚ) (deg0 : List ℤ)
    (st : List ℤ × List HEdge) (d : HEdge)
    (hlen : st.1.length = deg0.length)
    (hmono : ∀ x : ℤ, degAt st.1 x ≤ degAt deg0 x)
    (hval : 0 ≤ d.from_id ∧ d.from_id.toNat < deg0.length ∧
      0 ≤ d.to_id ∧ d.to_id.toNat < deg0.length)
    (hhang : degAt deg0 d.from_id = 1 ∨ degAt deg0 d.to_id = 1) :
    (dh_step tol elen st d = st ∧ ¬ elen d.geom < tol) ∨
    (dh_step tol elen st d = (degDec (degDec st.1 d.from_id) d.to_id, st.2 ++ [d])) := by
  obtain ⟨hf0, hflen, ht0, htlen⟩ := hval
  by_cases hl : elen d.geom < tol
  · right
    unfold dh_step
    rw [if_pos hl]
    have hflen' : d.from_id.toNat < st.1.length := by rw [hlen]; exact hflen
    have htlen' : d.to_id.toNat < (degDec st.1 d.from_id).length := by
      rw [degDec_length, hlen]; exact htlen
    have hfrom_val : degAt (degDec (degDec st.1 d.from_id) d.to_id) d.from_id =
        degAt st.1 d.from_id - 1 - (if d.to_id = d.from_id then 1 else 0) := by
      rw [degAt_degDec_eq _ d.to_id ht0 htlen' d.from_id hf0,
        degAt_degDec_eq _ d.from_id hf0 hflen' d.from_id hf0]
      simp
    have hto_val : degAt (degDec (degDec st.1 d.from_id) d.to_id) d.to_id =
        degAt st.1 d.to_id - (if d.from_id = d.to_id then 1 else 0) - 1 := by
      rw [degAt_degDec_eq _ d.to_id ht0 htlen' d.to_id ht0,
        degAt_degDec_eq _ d.from_id hf0 hflen' d.to_id ht0]
      simp
    have hblock : ¬ (degAt (degDec (degDec st.1 d.from_id) d.to_id) d.from_id = 1 ∧
        degAt (degDec (degDec st.1 d.from_id) d.to_id) d.to_id = 1) := by
      rcases hhang with hh | hh
      · intro hc
        have hm := hmono d.from_id
        rw [hh] at hm
        have h1 := hc.1
        rw [hfrom_val] at h1
        by_cases he : d.to_id = d.from_id
        · rw [if_pos he] at h1
          omega
        · rw [if_neg he] at h1
          omega
      · intro hc
        have hm := hmono d.to_id
        rw [hh] at hm
        have h2 := hc.2
        rw [hto_val] at h2
        by_cases he : d.from_id = d.to_id
        · rw [if_pos he] at h2
          omega
        · rw [if_neg he] at h2
          omega
    rw [if_neg hblock]
  · by_cases hc : degAt st.1 d.from_id = 1 ∧ degAt st.1 d.to_id = 1
    · right
      unfold dh_step
      rw [if_neg hl, if_pos hc]
    · left
      refine ⟨?_, hl⟩
      unfold dh_step
      rw [if_neg hl, if_neg hc]

lemma nodup_map_getElem_inj {α β : Type} (f : α → β) (l : List α)
    (h : (l.map f).Nodup) (i j : ℕ) (hi : i < l.length) (hj : j < l.length)
    (hf : f (l[i]) = f (l[j])) : i = j := by
  have hi2 : i < (l.map f).length := by simpa using hi
  have hj2 : j < (l.map f).length := by simpa using hj
  have h1 : (l.map f)[i] = (l.map f)[j] := by
    simpa [List.getElem_map] using hf
  exact (List.Nodup.getElem_inj_iff h).mp h1

lemma dh_fold_inv (tol : ℚ) (elen : Geom → ℚ) (deg0 : List ℤ) :
    ∀ (cands : List HEdge) (st : List ℤ × List HEdge),
    st.1.length = deg0.length →
    (∀ x : ℤ, degAt st.1 x ≤ degAt deg0 x) →
    (∀ j : ℕ, j < deg0.length → degAt st.1 (j : ℤ) = degAt deg0 (j : ℤ) -
      ((st.2.countP (fun d => d.from_id = (j : ℤ)) +
        st.2.countP (fun d => d.to_id = (j : ℤ)) : ℕ) : ℤ)) →
    ((st.2.map (fun d => d.id)).Nodup) →
    (∀ d ∈ cands, d.id ∉ st.2.map (fun d => d.id)) →
    ((cands.map (fun d => d.id)).Nodup) →
    (∀ d ∈ cands, (0 ≤ d.from_id ∧ d.from_id.toNat < deg0.length ∧
      0 ≤ d.to_id ∧ d.to_id.toNat < deg0.length) ∧
      (degAt deg0 d.from_id = 1 ∨ degAt deg0 d.to_id = 1)) →
    (((cands.foldl (dh_step tol elen) st).2.map (fun d => d.id)).Nodup) ∧
    (∀ j : ℕ, j < deg0.length →
      degAt (cands.foldl (dh_step tol elen) st).1 (j : ℤ) = degAt deg0 (j : ℤ) -
      (((cands.foldl (dh_step tol elen) st).2.countP (fun d => d.from_id = (j : ℤ)) +
        (cands.foldl (dh_step tol elen) st).2.countP (fun d => d.to_id = (j : ℤ)) : ℕ) : ℤ)) ∧
    (∀ d ∈ cands, elen d.geom < tol → d ∈ (cands.foldl (dh_step tol elen) st).2) ∧
    (∀ d ∈ st.2, d ∈ (cands.foldl (dh_step tol elen) st).2) := by
  intro cands
  induction cands with
  | nil =>
    intro st hlen hmono heq hnd hdisj hcnd hhang
    exact ⟨hnd, heq, by simp, fun d hd => hd⟩
  | cons d rest ih =>
    intro st hlen hmono heq hnd hdisj hcnd hhang
    rw [List.map_cons] at hcnd
    have hcnd_head := (List.nodup_cons.mp hcnd).1
    have hcnd_tail := (List.nodup_cons.mp hcnd).2
    obtain ⟨hvald, hhangd⟩ := hhang d (by simp)
    have hf0 := hvald.1
    have hflen := hvald.2.1
    have ht0 := hvald.2.2.1
    have htlen := hvald.2.2.2
    rcases dh_step_cases tol elen deg0 st d hlen hmono hvald hhangd with ⟨hstep, hnl⟩ | hstep
    · rw [List.foldl_cons, hstep]
      obtain ⟨c1, c2, c3, c4⟩ := ih st hlen hmono heq hnd
        (fun d0 hd0 => hdisj d0 (by simp [hd0])) hcnd_tail
        (fun d0 hd0 => hhang d0 (by simp [hd0]))
      refine ⟨c1, c2, ?_, c4⟩
      intro d0 hd0 hlt
      rcases List.mem_cons.mp hd0 with hh | hh
      · subst hh
        exact absurd hlt hnl
      · exact c3 d0 hh hlt
    · rw [List.foldl_cons, hstep]
      have hflen' : d.from_id.toNat < st.1.length := by rw [hlen]; exact hflen
      have htlen' : d.to_id.toNat < (degDec st.1 d.from_id).length := by
        rw [degDec_length, hlen]; exact htlen
      have hlen' : (degDec (degDec st.1 d.from_id) d.to_id).length = deg0.length := by
        rw [degDec_length, degDec_length]; exact hlen
      have hmono' : ∀ x : ℤ, degAt (degDec (degDec st.1 d.from_id) d.to_id) x ≤
          degAt deg0 x := fun x =>
        le_trans (le_trans (degAt_degDec_le _ _ _) (degAt_degDec_le _ _ _)) (hmono x)
      have heq' : ∀ j : ℕ, j < deg0.length →
          degAt (degDec (degDec st.1 d.from_id) d.to_id) (j : ℤ) = degAt deg0 (j : ℤ) -
          (((st.2 ++ [d]).countP (fun d => d.from_id = (j : ℤ)) +
            (st.2 ++ [d]).countP (fun d => d.to_id = (j : ℤ)) : ℕ) : ℤ) := by
        intro j hj
        rw [degAt_degDec_eq _ d.to_id ht0 htlen' (j : ℤ) (by positivity),
          degAt_degDec_eq _ d.from_id hf0 hflen' (j : ℤ) (by positivity),
          heq j hj, List.countP_append, List.countP_append]
        by_cases hfj : d.from_id = (j : ℤ) <;> by_cases htj : d.to_id = (j : ℤ) <;>
          simp [hfj, htj] <;> push_cast <;> omega
      have hnd' : ((st.2 ++ [d]).map (fun d => d.id)).Nodup := by
        rw [List.map_append]
        refine List.Nodup.append hnd (by simp) ?_
        intro x hx
        simp only [List.map_cons, List.map_nil, List.mem_singleton]
        intro hxd
        exact hdisj d (by simp) (by rw [← hxd]; exact hx)
      have hdisj' : ∀ d0 ∈ rest, d0.id ∉ (st.2 ++ [d]).map (fun d => d.id) := by
        intro d0 hd0
        rw [List.map_append]
        intro hmem
        rcases List.mem_append.mp hmem with hh | hh
        · exact hdisj d0 (by simp [hd0]) hh
        · simp only [List.map_cons, List.map_nil, List.mem_singleton] at hh
          exact hcnd_head (List.mem_map.mpr ⟨d0, hd0, hh⟩)
      obtain ⟨c1, c2, c3, c4⟩ := ih ((degDec (degDec st.1 d.from_id) d.to_id, st.2 ++ [d]))
        hlen' hmono' heq' hnd' hdisj' hcnd_tail
        (fun d0 hd0 => hhang d0 (by simp [hd0]))
      refine ⟨c1, c2, ?_, ?_⟩
      · intro d0 hd0 hlt
        rcases List.mem_cons.mp hd0 with hh | hh
        · subst hh
          exact c4 d0 (by simp)
        · exact c3 d0 hh hlt
      · intro d0 hd0
        exact c4 d0 (by simp [hd0])

lemma getD_eq_getElem_of_lt (l : List HEdge) (i : ℕ) (h : i < l.length) :
    l.getD i default = l[i] := by
  rw [List.getD_eq_getElem?_getD, List.getElem?_eq_getElem h]
  rfl

lemma cand_positions_mem (deg : List ℤ) (edges : List HEdge) :
    ∀ i ∈ cand_positions deg edges, i < edges.length ∧
      (is_hang deg (edges.getD i default).to_id = true ∨
        is_hang deg (edges.getD i default).from_id = true) := by
  intro i hi
  unfold cand_positions at hi
  have hi' := (List.perm_insertionSort (· ≤ ·) _).mem_iff.mp hi
  rcases List.mem_append.mp hi' with hh | hh
  · have hm := List.mem_filter.mp hh
    exact ⟨List.mem_range.mp hm.1, Or.inl hm.2⟩
  · have hm := List.mem_filter.mp hh
    exact ⟨List.mem_range.mp hm.1, Or.inr hm.2⟩

lemma cand_positions_nodup (deg : List ℤ) (edges : List HEdge)
    (h1 : ∀ e ∈ edges, ¬ (is_hang deg e.to_id = true ∧ is_hang deg e.from_id = true)) :
    (cand_positions deg edges).Nodup := by
  unfold cand_positions
  apply ((List.perm_insertionSort (· ≤ ·) _).nodup_iff).mpr
  refine List.Nodup.append (List.Nodup.filter _ (List.nodup_range _))
    (List.Nodup.filter _ (List.nodup_range _)) ?_
  rw [List.disjoint_left]
  intro i hiA hiB
  have hA := List.mem_filter.mp hiA
  have hB := List.mem_filter.mp hiB
  have hilen := List.mem_range.mp hA.1
  have hmem : edges.getD i default ∈ edges := by
    rw [getD_eq_getElem_of_lt edges i hilen]
    exact List.getElem_mem hilen
  exact h1 _ hmem ⟨hA.2, hB.2⟩

lemma cand_edges_ids_nodup (deg : List ℤ) (edges : List HEdge)
    (h1 : ∀ e ∈ edges, ¬ (is_hang deg e.to_id = true ∧ is_hang deg e.from_id = true))
    (h2 : (edges.map (fun e => e.id)).Nodup) :
    ((cand_edges deg edges).map (fun d => d.id)).Nodup := by
  unfold cand_edges
  rw [List.map_map]
  apply List.Nodup.map_on ?_ (cand_positions_nodup deg edges h1)
  intro i hi j hj hij
  have hi' := (cand_positions_mem deg edges i hi).1
  have hj' := (cand_positions_mem deg edges j hj).1
  simp only [Function.comp] at hij
  rw [getD_eq_getElem_of_lt edges i hi', getD_eq_getElem_of_lt edges j hj'] at hij
  exact nodup_map_getElem_inj (fun e => e.id) edges h2 i j hi' hj' hij

/-- C3 counterexample: degree array [1, 1] and one isolated edge between the
two degree-1 nodes, shorter than the tolerance (length 0 against tolerance 1
here).  The edge appears twice among the candidates (once from each
endpoint), rule one fires at both occurrences, and both endpoint degrees end
at -1.  Under the claim as stated the edge is dropped once with each endpoint
decremented exactly once (and the second rule not triggered, as the adjusted
degrees are 0), so the degrees would end at [0, 0]. -/
theorem C3_drop_hanging_counterexample :
    (drop_hanging_nodes 1 (fun _ => 0) [1, 1] [⟨0, 0, 1, []⟩]).1 =
      [-1, -1] ∧ ([-1, -1] : List ℤ) ≠ [0, 0] :=
  ⟨by decide, by decide⟩

/-- C3 amended: when no edge joins two initially degree-1 nodes (so no edge is
listed twice among the candidates), the single pass with the live degree array
drops each edge at most once, each endpoint degree is decremented exactly once
per rule that fired for an incident dropped edge (the degree equation below),
and every candidate shorter than the tolerance is dropped; drop_hanging_nodes
returns exactly the degrees of this pass.  Hypotheses: no duplicated
candidate, unique edge ids, valid endpoint references. -/
theorem C3_drop_hanging_amended (tol : ℚ) (elen : Geom → ℚ) (deg : List ℤ)
    (edges : List HEdge)
    (h1 : ∀ e ∈ edges, ¬ (is_hang deg e.to_id = true ∧ is_hang deg e.from_id = true))
    (h2 : (edges.map (fun e => e.id)).Nodup)
    (h3 : ∀ e ∈ edges, 0 ≤ e.from_id ∧ e.from_id.toNat < deg.length ∧
      0 ≤ e.to_id ∧ e.to_id.toNat < deg.length) :
    (((dh_pass tol elen deg edges).2.map (fun d => d.id)).Nodup) ∧
    (∀ j : ℕ, j < deg.length → degAt (dh_pass tol elen deg edges).1 (j : ℤ) =
      degAt deg (j : ℤ) -
      (((dh_pass tol elen deg edges).2.countP (fun d => d.from_id = (j : ℤ)) +
        (dh_pass tol elen deg edges).2.countP (fun d => d.to_id = (j : ℤ)) : ℕ) : ℤ)) ∧
    (∀ d ∈ cand_edges deg edges, elen d.geom < tol →
      d ∈ (dh_pass tol elen deg edges).2) ∧
    ((drop_hanging_nodes tol elen deg edges).1 = (dh_pass tol elen deg edges).1) := by
  have hmemc : ∀ d ∈ cand_edges deg edges, d ∈ edges ∧
      (is_hang deg d.to_id = true ∨ is_hang deg d.from_id = true) := by
    intro d hd
    obtain ⟨i, hi, heq⟩ := List.mem_map.mp hd
    obtain ⟨hilen, hhang⟩ := cand_positions_mem deg edges i hi
    rw [getD_eq_getElem_of_lt edges i hilen] at heq hhang
    rw [← heq]
    exact ⟨List.getElem_mem hilen, hhang⟩
  obtain ⟨c1, c2, c3, c4⟩ := dh_fold_inv tol elen deg (cand_edges deg edges) (deg, [])
    rfl (fun x => le_refl _) (by intro j hj; simp) (by simp)
    (by intro d hd; simp)
    (cand_edges_ids_nodup deg edges h1 h2)
    (by
      intro d hd
      obtain ⟨hde, hdh⟩ := hmemc d hd
      refine ⟨h3 d hde, ?_⟩
      rcases hdh with hh | hh
      · exact Or.inr (is_hang_spec deg d.to_id hh).1
      · exact Or.inl (is_hang_spec deg d.from_id hh).1)
  exact ⟨c1, c2, c3, rfl⟩

/-- C3 witness: degrees [1, 2, 1]; a short edge from node 0 to node 1 and a
long edge from node 1 to node 2.  Rule one drops the short edge, and rule two
then drops the long edge once both of its endpoints reach degree one. -/
theorem C3_drop_hanging_amended_witness :
    (((dh_pass 1 (fun g => if g.length = 0 then 0 else 5) [1, 2, 1]
        [⟨0, 0, 1, []⟩, ⟨1, 1, 2, [((0 : ℚ), (0 : ℚ)), ((1 : ℚ), (0 : ℚ))]⟩]).2.map
        (fun d => d.id)).Nodup) ∧
    (∀ j : ℕ, j < ([1, 2, 1] : List ℤ).length →
      degAt (dh_pass 1 (fun g => if g.length = 0 then 0 else 5) [1, 2, 1]
        [⟨0, 0, 1, []⟩, ⟨1, 1, 2, [((0 : ℚ), (0 : ℚ)), ((1 : ℚ), (0 : ℚ))]⟩]).1 (j : ℤ) =
      degAt [1, 2, 1] (j : ℤ) -
      (((dh_pass 1 (fun g => if g.length = 0 then 0 else 5) [1, 2, 1]
        [⟨0, 0, 1, []⟩, ⟨1, 1, 2, [((0 : ℚ), (0 : ℚ)), ((1 : ℚ), (0 : ℚ))]⟩]).2.countP
        (fun d => d.from_id = (j : ℤ)) +
        (dh_pass 1 (fun g => if g.length = 0 then 0 else 5) [1, 2, 1]
        [⟨0, 0, 1, []⟩, ⟨1, 1, 2, [((0 : ℚ), (0 : ℚ)), ((1 : ℚ), (0 : ℚ))]⟩]).2.countP
        (fun d => d.to_id = (j : ℤ)) : ℕ) : ℤ)) ∧
    (∀ d ∈ cand_edges [1, 2, 1]
        [⟨0, 0, 1, []⟩, ⟨1, 1, 2, [((0 : ℚ), (0 : ℚ)), ((1 : ℚ), (0 : ℚ))]⟩],
      (if d.geom.length = 0 then (0 : ℚ) else 5) < 1 →
      d ∈ (dh_pass 1 (fun g => if g.length = 0 then 0 else 5) [1, 2, 1]
        [⟨0, 0, 1, []⟩, ⟨1, 1, 2, [((0 : ℚ), (0 : ℚ)), ((1 : ℚ), (0 : ℚ))]⟩]).2) ∧
    ((drop_hanging_nodes 1 (fun g => if g.length = 0 then 0 else 5) [1, 2, 1]
        [⟨0, 0, 1, []⟩, ⟨1, 1, 2, [((0 : ℚ), (0 : ℚ)), ((1 : ℚ), (0 : ℚ))]⟩]).1 =
      (dh_pass 1 (fun g => if g.length = 0 then 0 else 5) [1, 2, 1]
        [⟨0, 0, 1, []⟩, ⟨1, 1, 2, [((0 : ℚ), (0 : ℚ)), ((1 : ℚ), (0 : ℚ))]⟩]).1) :=
  by
  exact C3_drop_hanging_amended 1 (fun g => if g.length = 0 then 0 else 5)
    [1, 2, 1] [⟨0, 0, 1, []⟩, ⟨1, 1, 2, [((0 : ℚ), (0 : ℚ)), ((1 : ℚ), (0 : ℚ))]⟩]
    (by decide) (by decide) (by decide)

/-! ## Roundabout collapser: find_roundabouts and clean_roundabouts
(simplify.py lines 373-453) -/

/-- Whether a LineString is closed: nonempty with equal first and last
vertex. -/
def isClosed (g : Geom) : Bool :=
  decide (g ≠ []) && decide (g.headD (0, 0) = g.getLastD (0, 0))

/-- Twice the signed area of the triangle a b c; zero exactly on collinear
triples. -/
def orient (a b c : Pt) : ℚ :=
  (b.1 - a.1) * (c.2 - a.2) - (b.2 - a.2) * (c.1 - a.1)

/-- Whether p lies inside the bounding box of the segment from a to b. -/
def inBox (a b p : Pt) : Bool :=
  decide (min a.1 b.1 ≤ p.1 ∧ p.1 ≤ max a.1 b.1 ∧ min a.2 b.2 ≤ p.2 ∧ p.2 ≤ max a.2 b.2)

/-- Whether p lies on the segment from a to b: collinear and in the box. -/
def onSegExact (a b p : Pt) : Bool := decide (orient a b p = 0) && inBox a b p

/-- Exact segment intersection test (proper crossing or an endpoint on the
other segment). -/
def segIntersect (p1 p2 q1 q2 : Pt) : Bool :=
  let d1 := orient q1 q2 p1
  let d2 := orient q1 q2 p2
  let d3 := orient p1 p2 q1
  let d4 := orient p1 p2 q2
  (decide ((d1 > 0 ∧ d2 < 0) ∨ (d1 < 0 ∧ d2 > 0)) &&
    decide ((d3 > 0 ∧ d4 < 0) ∨ (d3 < 0 ∧ d4 > 0))) ||
  onSegExact q1 q2 p1 || onSegExact q1 q2 p2 || onSegExact p1 p2 q1 || onSegExact p1 p2 q2

/-- Whether two segments meeting at the shared vertex v (one arriving from a,
one leaving to b) touch only at v: not collinear, or collinear pointing in
opposite directions. -/
def adjacentOk (a v b : Pt) : Bool :=
  decide (orient a v b ≠ 0) ||
    decide ((a.1 - v.1) * (b.1 - v.1) + (a.2 - v.2) * (b.2 - v.2) < 0)

/-- Simplicity of a closed coordinate ring: every pair of distinct segments
is disjoint, except consecutive segments (and the closing pair) which may
touch only at their shared vertex. -/
def ringSimple (g : Geom) : Bool :=
  let segs := g.zip g.tail
  let n := segs.length
  (List.range n).all (fun i => (List.range n).all (fun j =>
    if i < j then
      if j = i + 1 then
        adjacentOk (segs.getD i default).1 (segs.getD i default).2 (segs.getD j default).2
      else if i = 0 ∧ j = n - 1 then
        adjacentOk (segs.getD j default).1 (segs.getD i default).1 (segs.getD i default).2
      else ! segIntersect (segs.getD i default).1 (segs.getD i default).2
        (segs.getD j default).1 (segs.getD j default).2
    else true))

/-- pygeos.predicates.is_ring of the geometry collaborator: the line is
closed and simple. -/
def is_ring (g : Geom) : Bool := isClosed g && ringSimple g

/-- An edge row at roundabout-cleaning time, the stage before ids exist:
osm_id, highway class, geometry — the three columns the source reads and
rebuilds (lines 411, 441-448). -/
structure CEdge where
  osm_id : ℤ
  highway : String
  geometry : Geom
deriving DecidableEq, Inhabited

/-- Row of the edge table at a position (edges.iloc). -/
def cedgeAt (edges : List CEdge) (i : ℕ) : CEdge := edges.getD i default

/-- Source find_roundabouts (lines 375-379), as row positions: every edge
whose geometry is a ring. -/
def find_roundabouts (edges : List CEdge) : List ℕ :=
  (List.range edges.length).filter (fun i => is_ring (cedgeAt edges i).geometry)

/-- Splice of the centroid onto an intersecting edge (lines 406-419): prepend
the centroid when the first coordinate is strictly closer to it than the
last (the source compares Euclidean distances with a strict greater-than;
squared distances compare identically), else append it. -/
def snap_line_to_centroid (geom : Geom) (cen : Pt) : Geom :=
  if sqDist (geom.getLastD (0, 0)) cen > sqDist (geom.headD (0, 0)) cen
  then cen :: geom else geom ++ [cen]

/-- Accumulators of clean_roundabouts: the rebuilt rows, the positions to
remove, and the osm ids already rebuilt. -/
structure RState where
  new_edge : List (ℤ × String × Geom)
  remove_edge : List ℕ
  new_edge_id : List ℤ
deriving DecidableEq

/-- Python list.pop at the index of the first entry with the given osm id:
the popped entry and the remaining list in order. -/
def pop_first_matching (osm : ℤ) : List (ℤ × String × Geom) →
    Option ((ℤ × String × Geom) × List (ℤ × String × Geom))
  | [] => none
  | x :: xs =>
    if x.1 = osm then some (x, xs)
    else
      match pop_first_matching osm xs with
      | some (y, rest) => some (y, x :: rest)
      | none => none

/-- Body of the inner loop of clean_roundabouts (lines 404-446) for one
intersecting edge at table position i: splice the centroid onto it; if its
osm id was already rebuilt by an earlier roundabout, pop that pending row and
re-splice the current centroid onto the pending geometry instead; mark the
position for removal.  The none branch of the pop is unreachable when the id
bookkeeping is consistent (Python would raise there). -/
def process_intersecting (edges : List CEdge) (cen : Pt) (st : RState) (i : ℕ) : RState :=
  if (cedgeAt edges i).osm_id ∈ st.new_edge_id then
    match pop_first_matching (cedgeAt edges i).osm_id st.new_edge with
    | some (dbl, rest) =>
      { st with
        new_edge := rest ++ [((cedgeAt edges i).osm_id, (cedgeAt edges i).highway,
          snap_line_to_centroid dbl.2.2 cen)]
        remove_edge := st.remove_edge ++ [i] }
    | none => { st with remove_edge := st.remove_edge ++ [i] }
  else
    { st with
      new_edge := st.new_edge ++ [((cedgeAt edges i).osm_id, (cedgeAt edges i).highway,
        snap_line_to_centroid (cedgeAt edges i).geometry cen)]
      new_edge_id := st.new_edge_id ++ [(cedgeAt edges i).osm_id]
      remove_edge := st.remove_edge ++ [i] }

/-- Body of the outer loop (lines 394-446) for one roundabout at position
rIdx: mark the roundabout for removal, query the index for intersecting
edges (the query collaborator models the STRtree built over the edge
geometries with the buffered intersects predicate), drop the roundabout's
own position from the hits, and process each hit. -/
def process_roundabout (query : Geom → List ℕ) (centroid : Geom → Pt)
    (edges : List CEdge) (st : RState) (rIdx : ℕ) : RState :=
  ((query (cedgeAt edges rIdx).geometry).erase rIdx).foldl
    (process_intersecting edges (centroid (cedgeAt edges rIdx).geometry))
    { st with remove_edge := st.remove_edge ++ [rIdx] }

/-- Source clean_roundabouts: run the loop over all roundabouts, keep the
rows not marked for removal, and append the rebuilt rows. -/
def clean_roundabouts (query : Geom → List ℕ) (centroid : Geom → Pt)
    (edges : List CEdge) : List CEdge :=
  let st := (find_roundabouts edges).foldl (process_roundabout query centroid edges) ⟨[], [], []⟩
  ((List.range edges.length).filter (fun i => decide (i ∉ st.remove_edge))).map
      (cedgeAt edges) ++
    st.new_edge.map (fun x => ⟨x.1, x.2.1, x.2.2⟩)

/-! ### Lemmas for clean_roundabouts -/

lemma range_filter_eq_singleton (p : ℕ → Bool) (r : ℕ) :
    ∀ n : ℕ, r < n → p r = true → (∀ i, i < n → i ≠ r → p i = false) →
    (List.range n).filter p = [r] := by
  intro n
  induction n with
  | zero => intro h; omega
  | succ m ih =>
    intro hr hpr ho
    rw [List.range_succ, List.filter_append]
    by_cases hrm : r = m
    · subst hrm
      have h1 : (List.range r).filter p = [] := by
        rw [List.filter_eq_nil_iff]
        intro i hi
        have him := List.mem_range.mp hi
        simp [ho i (by omega) (by omega)]
      rw [h1]
      simp [hpr]
    · have hrlt : r < m := by omega
      rw [ih hrlt hpr (fun i hi hir => ho i (by omega) hir)]
      have hm : p m = false := ho m (by omega) (fun h => hrm h.symm)
      simp [hm]

lemma getLastD_cons_of_ne_nil (g : Geom) (c d1 d2 : Pt) (hg : g ≠ []) :
    (c :: g).getLastD d1 = g.getLastD d2 := by
  cases g with
  | nil => exact absurd rfl hg
  | cons x xs => simp only [List.getLastD_cons]

lemma headD_append_of_ne_nil (g : Geom) (c d : Pt) (hg : g ≠ []) :
    (g ++ [c]).headD d = g.headD d := by
  cases g with
  | nil => exact absurd rfl hg
  | cons x xs => simp

lemma is_ring_snap_false (g : Geom) (cen : Pt) (hg : g ≠ [])
    (hh : g.headD (0, 0) ≠ cen) (hl : g.getLastD (0, 0) ≠ cen) :
    is_ring (snap_line_to_centroid g cen) = false := by
  unfold snap_line_to_centroid
  by_cases hcmp : sqDist (g.getLastD (0, 0)) cen > sqDist (g.headD (0, 0)) cen
  · rw [if_pos hcmp]
    have h2 : (cen :: g).getLastD (0, 0) = g.getLastD (0, 0) :=
      getLastD_cons_of_ne_nil g cen (0, 0) (0, 0) hg
    have hP : ¬ ((cen :: g).headD (0, 0) = (cen :: g).getLastD (0, 0)) := by
      rw [List.headD_cons, h2]
      exact fun hcon => hl hcon.symm
    have hclosed : isClosed (cen :: g) = false := by
      unfold isClosed
      rw [decide_eq_false hP, Bool.and_false]
    unfold is_ring
    rw [hclosed, Bool.false_and]
  · rw [if_neg hcmp]
    have h1 : (g ++ [cen]).headD (0, 0) = g.headD (0, 0) :=
      headD_append_of_ne_nil g cen (0, 0) hg
    have hP : ¬ ((g ++ [cen]).headD (0, 0) = (g ++ [cen]).getLastD (0, 0)) := by
      rw [h1, List.getLastD_concat]
      exact hh
    have hclosed : isClosed (g ++ [cen]) = false := by
      unfold isClosed
      rw [decide_eq_false hP, Bool.and_false]
    unfold is_ring
    rw [hclosed, Bool.false_and]

lemma snap_line_terminates (g : Geom) (cen : Pt) :
    (sqDist (g.getLastD (0, 0)) cen > sqDist (g.headD (0, 0)) cen →
      (snap_line_to_centroid g cen).headD (0, 0) = cen) ∧
    (¬ sqDist (g.getLastD (0, 0)) cen > sqDist (g.headD (0, 0)) cen →
      (snap_line_to_centroid g cen).getLastD (0, 0) = cen) := by
  constructor
  · intro hcmp
    unfold snap_line_to_centroid
    rw [if_pos hcmp]
    rfl
  · intro hcmp
    unfold snap_line_to_centroid
    rw [if_neg hcmp]
    exact List.getLastD_concat _ _ _

/-- C6: for a network containing exactly one closed-ring edge (at position r)
which the spatial index reports as touched by exactly the two external edges
at positions a and b (distinct rows with distinct osm ids, in general
position with respect to the ring's centroid), clean_roundabouts removes the
ring, leaves every other edge untouched, and rebuilds exactly the two
external edges with the centroid spliced onto the end that is geometrically
closer to it, so both terminate at the centroid; the result contains zero
ring edges. -/
theorem C6_clean_roundabouts_spec (query : Geom → List ℕ) (centroid : Geom → Pt)
    (edges : List CEdge) (r a b : ℕ)
    (hrn : r < edges.length)
    (hra : r ≠ a) (hrb : r ≠ b) (hab : a ≠ b)
    (hring : is_ring (cedgeAt edges r).geometry = true)
    (hothers : ∀ i, i < edges.length → i ≠ r → is_ring (cedgeAt edges i).geometry = false)
    (hquery : query (cedgeAt edges r).geometry = [r, a, b])
    (hosm : (cedgeAt edges a).osm_id ≠ (cedgeAt edges b).osm_id)
    (hgA : (cedgeAt edges a).geometry ≠ [] ∧
      (cedgeAt edges a).geometry.headD (0, 0) ≠ centroid (cedgeAt edges r).geometry ∧
      (cedgeAt edges a).geometry.getLastD (0, 0) ≠ centroid (cedgeAt edges r).geometry)
    (hgB : (cedgeAt edges b).geometry ≠ [] ∧
      (cedgeAt edges b).geometry.headD (0, 0) ≠ centroid (cedgeAt edges r).geometry ∧
      (cedgeAt edges b).geometry.getLastD (0, 0) ≠ centroid (cedgeAt edges r).geometry) :
    (clean_roundabouts query centroid edges =
      ((List.range edges.length).filter (fun i => decide (i ∉ ([r, a, b] : List ℕ)))).map
        (cedgeAt edges) ++
      [⟨(cedgeAt edges a).osm_id, (cedgeAt edges a).highway,
        snap_line_to_centroid (cedgeAt edges a).geometry
          (centroid (cedgeAt edges r).geometry)⟩,
       ⟨(cedgeAt edges b).osm_id, (cedgeAt edges b).highway,
        snap_line_to_centroid (cedgeAt edges b).geometry
          (centroid (cedgeAt edges r).geometry)⟩]) ∧
    ((clean_roundabouts query centroid edges).filter (fun e => is_ring e.geometry) = []) ∧
    ((sqDist ((cedgeAt edges a).geometry.getLastD (0, 0))
        (centroid (cedgeAt edges r).geometry) >
      sqDist ((cedgeAt edges a).geometry.headD (0, 0))
        (centroid (cedgeAt edges r).geometry) →
      (snap_line_to_centroid (cedgeAt edges a).geometry
        (centroid (cedgeAt edges r).geometry)).headD (0, 0) =
        centroid (cedgeAt edges r).geometry) ∧
     (¬ sqDist ((cedgeAt edges a).geometry.getLastD (0, 0))
        (centroid (cedgeAt edges r).geometry) >
      sqDist ((cedgeAt edges a).geometry.headD (0, 0))
        (centroid (cedgeAt edges r).geometry) →
      (snap_line_to_centroid (cedgeAt edges a).geometry
        (centroid (cedgeAt edges r).geometry)).getLastD (0, 0) =
        centroid (cedgeAt edges r).geometry)) ∧
    ((sqDist ((cedgeAt edges b).geometry.getLastD (0, 0))
        (centroid (cedgeAt edges r).geometry) >
      sqDist ((cedgeAt edges b).geometry.headD (0, 0))
        (centroid (cedgeAt edges r).geometry) →
      (snap_line_to_centroid (cedgeAt edges b).geometry
        (centroid (cedgeAt edges r).geometry)).headD (0, 0) =
        centroid (cedgeAt edges r).geometry) ∧
     (¬ sqDist ((cedgeAt edges b).geometry.getLastD (0, 0))
        (centroid (cedgeAt edges r).geometry) >
      sqDist ((cedgeAt edges b).geometry.headD (0, 0))
        (centroid (cedgeAt edges r).geometry) →
      (snap_line_to_centroid (cedgeAt edges b).geometry
        (centroid (cedgeAt edges r).geometry)).getLastD (0, 0) =
        centroid (cedgeAt edges r).geometry)) := by
  have hfr : find_roundabouts edges = [r] := by
    unfold find_roundabouts
    exact range_filter_eq_singleton _ r edges.length hrn hring
      (fun i hi hir => hothers i hi hir)
  have herase : ((query (cedgeAt edges r).geometry).erase r) = [a, b] := by
    rw [hquery]
    simp
  have hstep1 : process_intersecting edges (centroid (cedgeAt edges r).geometry)
      ⟨[], [r], []⟩ a =
      ⟨[((cedgeAt edges a).osm_id, (cedgeAt edges a).highway,
        snap_line_to_centroid (cedgeAt edges a).geometry
          (centroid (cedgeAt edges r).geometry))], [r, a], [(cedgeAt edges a).osm_id]⟩ := by
    unfold process_intersecting
    rw [if_neg (by simp)]
    simp
  have hstep2 : process_intersecting edges (centroid (cedgeAt edges r).geometry)
      ⟨[((cedgeAt edges a).osm_id, (cedgeAt edges a).highway,
        snap_line_to_centroid (cedgeAt edges a).geometry
          (centroid (cedgeAt edges r).geometry))], [r, a], [(cedgeAt edges a).osm_id]⟩ b =
      ⟨[((cedgeAt edges a).osm_id, (cedgeAt edges a).highway,
        snap_line_to_centroid (cedgeAt edges a).geometry
          (centroid (cedgeAt edges r).geometry)),
        ((cedgeAt edges b).osm_id, (cedgeAt edges b).highway,
        snap_line_to_centroid (cedgeAt edges b).geometry
          (centroid (cedgeAt edges r).geometry))], [r, a, b],
        [(cedgeAt edges a).osm_id, (cedgeAt edges b).osm_id]⟩ := by
    unfold process_intersecting
    rw [if_neg (by
      simp only [List.mem_singleton]
      exact fun h => hosm h.symm)]
    simp
  have hst : (find_roundabouts edges).foldl (process_roundabout query centroid edges)
      ⟨[], [], []⟩ =
      ⟨[((cedgeAt edges a).osm_id, (cedgeAt edges a).highway,
        snap_line_to_centroid (cedgeAt edges a).geometry
          (centroid (cedgeAt edges r).geometry)),
        ((cedgeAt edges b).osm_id, (cedgeAt edges b).highway,
        snap_line_to_centroid (cedgeAt edges b).geometry
          (centroid (cedgeAt edges r).geometry))], [r, a, b],
        [(cedgeAt edges a).osm_id, (cedgeAt edges b).osm_id]⟩ := by
    rw [hfr, List.foldl_cons, List.foldl_nil]
    unfold process_roundabout
    rw [herase, List.foldl_cons, List.foldl_cons, List.foldl_nil]
    have h0 : ({ new_edge := [], remove_edge := [], new_edge_id := [] } : RState) =
        (⟨[], [], []⟩ : RState) := rfl
    rw [show ({ (⟨[], [], []⟩ : RState) with remove_edge :=
        (⟨[], [], []⟩ : RState).remove_edge ++ [r] } : RState) = ⟨[], [r], []⟩ from rfl]
    rw [hstep1, hstep2]
  have hclean : clean_roundabouts query centroid edges =
      ((List.range edges.length).filter (fun i => decide (i ∉ ([r, a, b] : List ℕ)))).map
        (cedgeAt edges) ++
      [⟨(cedgeAt edges a).osm_id, (cedgeAt edges a).highway,
        snap_line_to_centroid (cedgeAt edges a).geometry
          (centroid (cedgeAt edges r).geometry)⟩,
       ⟨(cedgeAt edges b).osm_id, (cedgeAt edges b).highway,
        snap_line_to_centroid (cedgeAt edges b).geometry
          (centroid (cedgeAt edges r).geometry)⟩] := by
    unfold clean_roundabouts
    rw [hst]
    simp
  refine ⟨hclean, ?_, snap_line_terminates _ _, snap_line_terminates _ _⟩
  rw [hclean, List.filter_eq_nil_iff]
  intro e he
  rcases List.mem_append.mp he with hh | hh
  · obtain ⟨i, hif, heq⟩ := List.mem_map.mp hh
    have hmf := List.mem_filter.mp hif
    have hilen := List.mem_range.mp hmf.1
    have hinotin : i ∉ ([r, a, b] : List ℕ) := by simpa using hmf.2
    have hir : i ≠ r := fun hcon => hinotin (by simp [hcon])
    rw [← heq]
    simp [hothers i hilen hir]
  · rcases List.mem_cons.mp hh with hh2 | hh2
    · rw [hh2]
      simp [is_ring_snap_false _ _ hgA.1 hgA.2.1 hgA.2.2]
    · rcases List.mem_cons.mp hh2 with hh3 | hh3
      · rw [hh3]
        simp [is_ring_snap_false _ _ hgB.1 hgB.2.1 hgB.2.2]
      · exact absurd hh3 (List.not_mem_nil e)

/-- Concrete square ring used to instantiate the roundabout theorem. -/
def c6ring : Geom :=
  [((0 : ℚ), (0 : ℚ)), ((2 : ℚ), (0 : ℚ)), ((2 : ℚ), (2 : ℚ)), ((0 : ℚ), (2 : ℚ)),
    ((0 : ℚ), (0 : ℚ))]

/-- Concrete edge table: the ring and two external edges touching it. -/
def c6edges : List CEdge :=
  [⟨1, "roundabout", c6ring⟩,
   ⟨10, "primary", [((2 : ℚ), (0 : ℚ)), ((5 : ℚ), (0 : ℚ))]⟩,
   ⟨20, "secondary", [((0 : ℚ), (2 : ℚ)), ((-3 : ℚ), (2 : ℚ))]⟩]

/-- Concrete spatial-index instance: the ring touches itself and the two
external edges, which both have a vertex on the ring boundary. -/
def c6query : Geom → List ℕ := fun g => if g = c6ring then [0, 1, 2] else []

/-- Concrete centroid collaborator: the square's centre. -/
def c6centroid : Geom → Pt := fun _ => ((1 : ℚ), (1 : ℚ))

/-- C6 witness: on the concrete one-ring two-external-edge network the
conclusion of the roundabout theorem holds. -/
theorem C6_clean_roundabouts_spec_witness :
    (clean_roundabouts c6query c6centroid c6edges =
      ((List.range c6edges.length).filter (fun i => decide (i ∉ ([0, 1, 2] : List ℕ)))).map
        (cedgeAt c6edges) ++
      [⟨(cedgeAt c6edges 1).osm_id, (cedgeAt c6edges 1).highway,
        snap_line_to_centroid (cedgeAt c6edges 1).geometry
          (c6centroid (cedgeAt c6edges 0).geometry)⟩,
       ⟨(cedgeAt c6edges 2).osm_id, (cedgeAt c6edges 2).highway,
        snap_line_to_centroid (cedgeAt c6edges 2).geometry
          (c6centroid (cedgeAt c6edges 0).geometry)⟩]) ∧
    ((clean_roundabouts c6query c6centroid c6edges).filter
      (fun e => is_ring e.geometry) = []) ∧
    ((sqDist ((cedgeAt c6edges 1).geometry.getLastD (0, 0))
        (c6centroid (cedgeAt c6edges 0).geometry) >
      sqDist ((cedgeAt c6edges 1).geometry.headD (0, 0))
        (c6centroid (cedgeAt c6edges 0).geometry) →
      (snap_line_to_centroid (cedgeAt c6edges 1).geometry
        (c6centroid (cedgeAt c6edges 0).geometry)).headD (0, 0) =
        c6centroid (cedgeAt c6edges 0).geometry) ∧
     (¬ sqDist ((cedgeAt c6edges 1).geometry.getLastD (0, 0))
        (c6centroid (cedgeAt c6edges 0).geometry) >
      sqDist ((cedgeAt c6edges 1).geometry.headD (0, 0))
        (c6centroid (cedgeAt c6edges 0).geometry) →
      (snap_line_to_centroid (cedgeAt c6edges 1).geometry
        (c6centroid (cedgeAt c6edges 0).geometry)).getLastD (0, 0) =
        c6centroid (cedgeAt c6edges 0).geometry)) ∧
    ((sqDist ((cedgeAt c6edges 2).geometry.getLastD (0, 0))
        (c6centroid (cedgeAt c6edges 0).geometry) >
      sqDist ((cedgeAt c6edges 2).geometry.headD (0, 0))
        (c6centroid (cedgeAt c6edges 0).geometry) →
      (snap_line_to_centroid (cedgeAt c6edges 2).geometry
        (c6centroid (cedgeAt c6edges 0).geometry)).headD (0, 0) =
        c6centroid (cedgeAt c6edges 0).geometry) ∧
     (¬ sqDist ((cedgeAt c6edges 2).geometry.getLastD (0, 0))
        (c6centroid (cedgeAt c6edges 0).geometry) >
      sqDist ((cedgeAt c6edges 2).geometry.headD (0, 0))
        (c6centroid (cedgeAt c6edges 0).geometry) →
      (snap_line_to_centroid (cedgeAt c6edges 2).geometry
        (c6centroid (cedgeAt c6edges 0).geometry)).getLastD (0, 0) =
        c6centroid (cedgeAt c6edges 0).geometry)) := by
  exact C6_clean_roundabouts_spec c6query c6centroid c6edges 0 1 2
    (by decide) (by decide) (by decide) (by decide)
    (by norm_num [cedgeAt, c6edges, c6ring, is_ring, isClosed, ringSimple,
      List.range_succ, adjacentOk, segIntersect, onSegExact, inBox, orient,
      List.cons_ne_nil])
    (by
      intro i hi hir
      have hi3 : i < 3 := by simpa [c6edges] using hi
      interval_cases i
      · exact absurd rfl hir
      · decide
      · decide)
    (by decide) (by decide) (by decide) (by decide)

-- merge_2 (degree-2 chain contraction), simplify.py lines 580-693.

/-- Edge row for the contraction stage: id, endpoint references and geometry,
as in the edges frame handed to merge_2. -/
structure MEdge where
  id : ℤ
  from_id : ℤ
  to_id : ℤ
  geom : Geom
deriving DecidableEq, Inhabited

/-- Node row for the contraction stage: id, point geometry and the degree
column (merge_2 is run after add_degree, so the column is present). -/
structure MNode where
  id : ℤ
  geom : Pt
  degree : ℤ
deriving DecidableEq, Inhabited

/-- External pygeos collaborators of merge_2: the STRtree intersection query on
the original edge geometries (returning tree positions; the tree is built once
and never rebuilt, so it is stale with respect to later edits), point-to-line
distance, and line_merge of the collected multilinestring (some g exactly when
the pieces merge to a single LineString with geometry g). -/
structure MGeo where
  query : Pt → List ℕ
  distPL : Pt → Geom → ℚ
  lineMerge : List Geom → Option Geom

/-- Geometry of the node with id i: nodGeom[nodeID] indexes the geometry column
positionally by the id, valid because ids are dense row numbers after
reset_ids. -/
def ptAt (ng : List Pt) (i : ℤ) : Pt := ng.getD i.toNat (0, 0)

/-- Next node along an edge: e.to_id if e.from_id == nid else e.from_id. -/
def otherEnd (e : MEdge) (nid : ℤ) : ℤ := if e.from_id = nid then e.to_id else e.from_id

/-- Selection of the two rows nearest to the node geometry when the query
returned more than two hits (lines 687-693); Python's min keeps the first
minimiser, List.argmin does the same. The source removes the value
edgePath1.id from the set of tree positions (index/id conflation, valid when
ids equal positions), modelled as a filter on the position value. -/
def find_closest_2_edges (G : MGeo) (edg : List MEdge) (p : Pt) (eID : List ℕ) :
    Option (MEdge × MEdge) :=
  match (eID.map (fun i => edg.getD i default)).argmin (fun e => G.distPL p e.geom) with
  | none => none
  | some e1 =>
    match ((eID.filter (fun i : ℕ => decide ((i : ℤ) ≠ e1.id))).map
        (fun i => edg.getD i default)).argmin (fun e => G.distPL p e.geom) with
    | none => none
    | some e2 => some (e1, e2)

/-- Edge-pair selection at the popped node (lines 611-620): fewer than two hits
aborts the attempt (none), exactly two pops both (Python pops a set of small
ints in ascending order; the model keeps the query order, and the concrete
instances below list positions ascending), more than two delegates to
find_closest_2_edges. -/
def attemptSelect (G : MGeo) (edg : List MEdge) (p : Pt) : Option (MEdge × MEdge) :=
  let eID := G.query p
  if 2 < eID.length then find_closest_2_edges G edg p eID
  else
    match eID with
    | [i, j] => some (edg.getD i default, edg.getD j default)
    | _ => none

/-- State shared by the two outward walks of one contraction attempt: the
current edge, the frontier node, the visited node list pos_0_deg, the global
pending set n2, the accumulated geometries newEdge and the deletion list
possibly_delete. -/
structure WalkSt where
  edgePath : MEdge
  nextNode : ℤ
  pos0 : List ℤ
  pending : List ℤ
  newEdge : List Geom
  pdel : List ℤ
deriving DecidableEq, Inhabited

/-- One outward traversal loop of merge_2 (lines 631-645 and 647-660). The
frontier advances while its degree is 2, stopping at a visited node; when the
stale tree query at the frontier yields no edge other than the incoming one,
the source's min() over an empty list raises and the except handler re-enters
the while loop with a completely unchanged state, so the model recurses on the
same state and only the fuel decreases; exhausted fuel is the divergence
(none). Walk 1 ranks candidates by distance to the fixed initial next node of
the other direction (nodGeom[nextNode2] on line 637), walk 2 by distance to
its own moving frontier; useFrontier selects between the two. -/
def walk (G : MGeo) (edg : List MEdge) (ng : List Pt) (deg : List ℤ)
    (useFrontier : Bool) (fixedPt : Pt) : ℕ → WalkSt → Option WalkSt
  | 0, _ => none
  | fuel + 1, st =>
    if degAt deg st.nextNode = 2 then
      if st.nextNode ∈ st.pos0 then some st
      else
        let p := ptAt ng st.nextNode
        let cand := ((G.query p).filter (fun i : ℕ => decide ((i : ℤ) ≠ st.edgePath.id))).map
          (fun i => edg.getD i default)
        match cand.argmin (fun e => G.distPL (if useFrontier then p else fixedPt) e.geom) with
        | none => walk G edg ng deg useFrontier fixedPt fuel st
        | some e =>
          walk G edg ng deg useFrontier fixedPt fuel
            { edgePath := e
              nextNode := otherEnd e st.nextNode
              pos0 := st.pos0 ++ [st.nextNode]
              pending := st.pending.erase st.nextNode
              newEdge := st.newEdge ++ [e.geom]
              pdel := st.pdel ++ [e.id] }
    else some st

/-- Mutable state of the outer merge_2 loop: the edited edges frame, the degree
array (a view on the nodes frame), the pending degree-2 ids n2, the removal
list eIDtoRemove, and the ids whose merge failure was printed. -/
structure MState where
  edg : List MEdge
  deg : List ℤ
  pending : List ℤ
  eRem : List ℤ
  reports : List ℤ
deriving DecidableEq, Inhabited

/-- Rewrite applied to the first edge row on a successful merge:
edg.at[info_first_edge] gets the merged geometry and the two walk endpoints
(label-based, so by id). -/
def commitEdge (e1id : ℤ) (g : Geom) (n1 n2 : ℤ) (e : MEdge) : MEdge :=
  if e.id = e1id then { e with geom := g, from_id := n1, to_id := n2 } else e

/-- Body of one outer-loop iteration of merge_2 after popping nodeID (lines
602-671): select the two incident edges or abort, abort silently when both
directions meet at the same next node immediately, run the two walks (sharing
pos_0_deg, n2, newEdge and possibly_delete), then either commit the merged
edge on line_merge success or, on failure, keep every edge row and only report
the first edge id when print_err is set. none propagates walk divergence. -/
def merge2Attempt (G : MGeo) (print_err : Bool) (ng : List Pt) (fw : ℕ)
    (st : MState) (nodeID : ℤ) : Option MState :=
  match attemptSelect G st.edg (ptAt ng nodeID) with
  | none => some st
  | some (e1, e2) =>
    if otherEnd e1 nodeID = otherEnd e2 nodeID then some st
    else
      match walk G st.edg ng st.deg false (ptAt ng (otherEnd e2 nodeID)) fw
          ⟨e1, otherEnd e1 nodeID, [nodeID], st.pending, [e1.geom, e2.geom], [e2.id]⟩ with
      | none => none
      | some w1 =>
        match walk G st.edg ng st.deg true (ptAt ng (otherEnd e2 nodeID)) fw
            { w1 with edgePath := e2, nextNode := otherEnd e2 nodeID } with
        | none => none
        | some w2 =>
          match G.lineMerge w2.newEdge with
          | some g =>
            some { edg := st.edg.map (commitEdge e1.id g w1.nextNode w2.nextNode)
                   deg := w2.pos0.foldl (fun d x => d.set x.toNat 0) st.deg
                   pending := w2.pending
                   eRem := st.eRem ++ w2.pdel
                   reports := st.reports }
          | none =>
            some { st with pending := w2.pending, reports := st.reports ++ if print_err then [e1.id] else [] }

/-- Outer while-loop over the pending degree-2 set, popping one id per
iteration (Python set.pop order modelled as list head). The pending list
strictly shrinks; the fuel only caps the iteration count of the model. -/
def merge2Loop (G : MGeo) (print_err : Bool) (ng : List Pt) (fw : ℕ) :
    ℕ → MState → Option MState
  | 0, st => if st.pending = [] then some st else none
  | fuel + 1, st =>
    match st.pending with
    | [] => some st
    | nodeID :: rest =>
      match merge2Attempt G print_err ng fw { st with pending := rest } nodeID with
      | none => none
      | some st2 => merge2Loop G print_err ng fw fuel st2

/-- merge_2 with a degree column present (lines 580-683): run the contraction
loop over the degree-2 ids, then drop the edges marked for removal and keep
the node rows whose live degree is positive; the degree column shares storage
with the mutated array (to_numpy view semantics), so the filter and the
surviving degrees read the updated values. The result also carries the list
of ids whose merge failure was printed; none models non-termination. -/
def merge_2 (G : MGeo) (print_err : Bool) (fo fw : ℕ)
    (nodes : List MNode) (edges : List MEdge) :
    Option (List MNode × List MEdge × List ℤ) :=
  let deg := nodes.map (fun nd => nd.degree)
  let ng := nodes.map (fun nd => nd.geom)
  let pending := (nodes.filter (fun nd => decide (nd.degree = 2))).map (fun nd => nd.id)
  match merge2Loop G print_err ng fw fo ⟨edges, deg, pending, [], []⟩ with
  | none => none
  | some st =>
    some (((List.range nodes.length).filter (fun i => decide (0 < st.deg.getD i 0))).map
        (fun i => { nodes.getD i default with degree := st.deg.getD i 0 }),
      st.edg.filter (fun e => decide (e.id ∉ st.eRem)),
      st.reports)

/-- Collaborator instance whose tree query never answers: adequate for runs in
which the contraction loop has nothing to pop. -/
def c7geo : MGeo := ⟨fun _ => [], fun _ _ => 0, fun _ => none⟩

/-- Already-contracted network that still holds a degree-0 node (as left behind
by drop_hanging_nodes). -/
def c7nodes : List MNode :=
  [⟨0, ((0 : ℚ), (0 : ℚ)), 1⟩, ⟨1, ((1 : ℚ), (0 : ℚ)), 1⟩, ⟨2, ((5 : ℚ), (5 : ℚ)), 0⟩]

/-- Single edge of the already-contracted network. -/
def c7edges : List MEdge := [⟨0, 0, 1, [((0 : ℚ), (0 : ℚ)), ((1 : ℚ), (0 : ℚ))]⟩]

/-- C7 counterexample: on a network with a degree column and no degree-2 nodes,
merge_2 keeps the edge set but drops the degree-0 node, so the node set is not
unchanged as claimed. -/
theorem C7_merge2_counterexample :
    merge_2 c7geo false 3 3 c7nodes c7edges =
      some ([⟨0, ((0 : ℚ), (0 : ℚ)), 1⟩, ⟨1, ((1 : ℚ), (0 : ℚ)), 1⟩], c7edges, []) ∧
    ([⟨0, ((0 : ℚ), (0 : ℚ)), 1⟩, ⟨1, ((1 : ℚ), (0 : ℚ)), 1⟩] : List MNode) ≠ c7nodes := by
  constructor
  · decide
  · decide

/-- Draining an empty pending set returns the state unchanged at any fuel. -/
lemma merge2Loop_nil (G : MGeo) (pe : Bool) (ng : List Pt) (fw fo : ℕ)
    (e : List MEdge) (d : List ℤ) (r rep : List ℤ) :
    merge2Loop G pe ng fw fo ⟨e, d, [], r, rep⟩ = some ⟨e, d, [], r, rep⟩ := by
  cases fo <;> simp [merge2Loop]

/-- Reading a list by getD below the length is reading by position. -/
lemma getD_lt_eq_getElem {α : Type} (l : List α) (d : α) (i : ℕ) (h : i < l.length) :
    l.getD i d = l[i] := by
  simp [List.getD_eq_getElem?_getD, List.getElem?_eq_getElem h]

/-- Rebuilding a list from its positions is the identity. -/
lemma map_getD_range {α : Type} [Inhabited α] (l : List α) :
    (List.range l.length).map (fun i => l.getD i default) = l := by
  apply List.ext_getElem
  · simp
  · intro i h1 h2
    simp only [List.getElem_map, List.getElem_range]
    exact getD_lt_eq_getElem l default i h2

/-- C7: on a network carrying a degree column with no degree-2 node and every
degree positive, merge_2 returns the node rows, the edge rows and an empty
report list unchanged, for any collaborators, print flag and fuel. -/
theorem C7_merge2_idempotent (G : MGeo) (pe : Bool) (fo fw : ℕ)
    (nodes : List MNode) (edges : List MEdge)
    (h2 : ∀ nd ∈ nodes, nd.degree ≠ 2)
    (h0 : ∀ nd ∈ nodes, 0 < nd.degree) :
    merge_2 G pe fo fw nodes edges = some (nodes, edges, []) := by
  have hp : (nodes.filter (fun nd => decide (nd.degree = 2))).map (fun nd => nd.id) = [] := by
    rw [List.map_eq_nil_iff, List.filter_eq_nil_iff]
    intro nd hnd
    simp [h2 nd hnd]
  have hfil : (List.range nodes.length).filter
      (fun i => decide (0 < (nodes.map (fun nd => nd.degree)).getD i 0)) =
      List.range nodes.length := by
    rw [List.filter_eq_self]
    intro i hi
    rw [List.mem_range] at hi
    have := h0 (nodes[i]) (List.getElem_mem hi)
    rw [getD_lt_eq_getElem _ _ i (by simpa using hi)]
    simpa using this
  have hnod : (List.range nodes.length).map
      (fun i => { nodes.getD i default with
        degree := (nodes.map (fun nd => nd.degree)).getD i 0 }) = nodes := by
    apply List.ext_getElem
    · simp
    · intro i h1 h2'
      simp only [List.getElem_map, List.getElem_range]
      rw [getD_lt_eq_getElem nodes default i h2',
        getD_lt_eq_getElem (nodes.map (fun nd => nd.degree)) 0 i (by simpa using h2')]
      simp
  simp only [merge_2, hp, merge2Loop_nil, hfil, hnod]
  simp

/-- Already-contracted two-node network with positive degrees, used to witness
the idempotence theorem. -/
def c7wnodes : List MNode := [⟨0, ((0 : ℚ), (0 : ℚ)), 1⟩, ⟨1, ((1 : ℚ), (0 : ℚ)), 1⟩]

/-- C7 witness: merge_2 leaves the concrete contracted network unchanged. -/
theorem C7_merge2_idempotent_witness :
    merge_2 c7geo false 2 2 c7wnodes c7edges = some (c7wnodes, c7edges, []) := by
  exact C7_merge2_idempotent c7geo false 2 2 c7wnodes c7edges (by decide) (by decide)

/-- First edge of the degenerate two-edge cycle. -/
def c5e0 : MEdge := ⟨0, 0, 1, [((0 : ℚ), (0 : ℚ)), ((1 : ℚ), (0 : ℚ))]⟩

/-- Second, parallel edge of the degenerate two-edge cycle. -/
def c5e1 : MEdge := ⟨1, 0, 1, [((0 : ℚ), (0 : ℚ)), ((0 : ℚ), (1 : ℚ)), ((1 : ℚ), (0 : ℚ))]⟩

/-- Edges of the degenerate cycle network. -/
def c5edges : List MEdge := [c5e0, c5e1]

/-- Nodes of the degenerate cycle network: both endpoints have degree 2. -/
def c5nodes : List MNode := [⟨0, ((0 : ℚ), (0 : ℚ)), 2⟩, ⟨1, ((1 : ℚ), (0 : ℚ)), 2⟩]

/-- Collaborators for the degenerate cycle: each endpoint intersects both
edges. -/
def c5geo : MGeo :=
  ⟨fun p => if p = ((0 : ℚ), (0 : ℚ)) then [0, 1]
    else if p = ((1 : ℚ), (0 : ℚ)) then [0, 1] else [],
   fun _ _ => 0, fun _ => none⟩

/-- C5 counterexample: on a two-edge cycle between two degree-2 nodes, every
contraction attempt selects the two parallel edges and both directions lead to
the same next node; merge_2 leaves the network unchanged, as claimed, but the
degenerate events are never reported: the report list stays empty. -/
theorem C5_degenerate_silent_counterexample :
    attemptSelect c5geo c5edges ((0 : ℚ), (0 : ℚ)) = some (c5e0, c5e1) ∧
    otherEnd c5e0 0 = otherEnd c5e1 0 ∧
    merge_2 c5geo false 4 4 c5nodes c5edges = some (c5nodes, c5edges, []) := by
  refine ⟨by decide, by decide, by decide⟩

/-- C5: a degenerate contraction attempt preserves the edge rows, the degree
array and the removal list. When both directions meet at the same next node
the attempt aborts with the state fully unchanged and nothing is reported;
when the concatenated geometry fails to merge into a single LineString, every
edge row is kept but the event is reported (as the first edge id) only when
print_err is set, and the pending set still shrinks by the walked nodes. -/
theorem C5_degenerate_amended (G : MGeo) (pe : Bool) (ng : List Pt) (fw : ℕ)
    (st : MState) (nodeID : ℤ) (e1 e2 : MEdge)
    (hsel : attemptSelect G st.edg (ptAt ng nodeID) = some (e1, e2)) :
    (otherEnd e1 nodeID = otherEnd e2 nodeID →
      merge2Attempt G pe ng fw st nodeID = some st) ∧
    (∀ w1 w2 : WalkSt, otherEnd e1 nodeID ≠ otherEnd e2 nodeID →
      walk G st.edg ng st.deg false (ptAt ng (otherEnd e2 nodeID)) fw
        ⟨e1, otherEnd e1 nodeID, [nodeID], st.pending, [e1.geom, e2.geom], [e2.id]⟩ =
          some w1 →
      walk G st.edg ng st.deg true (ptAt ng (otherEnd e2 nodeID)) fw
        { w1 with edgePath := e2, nextNode := otherEnd e2 nodeID } = some w2 →
      G.lineMerge w2.newEdge = none →
      merge2Attempt G pe ng fw st nodeID =
        some { st with pending := w2.pending, reports := st.reports ++ if pe then [e1.id] else [] }) := by
  constructor
  · intro heq
    simp only [merge2Attempt, hsel, if_pos heq]
  · intro w1 w2 hne hw1 hw2 hlm
    simp only [merge2Attempt, hsel, if_neg hne, hw1, hw2, hlm]

/-- State of the outer loop of merge_2 on the degenerate cycle right after
popping node 0. -/
def c5st : MState := ⟨c5edges, [2, 2], [1], [], []⟩

/-- C5 witness: the degenerate-cycle attempt at node 0 returns its state
unchanged and reports nothing. -/
theorem C5_degenerate_amended_witness :
    merge2Attempt c5geo false (c5nodes.map (fun nd => nd.geom)) 4 c5st 0 = some c5st := by
  exact (C5_degenerate_amended c5geo false (c5nodes.map (fun nd => nd.geom)) 4 c5st 0 c5e0 c5e1
    (by decide)).1 (by decide)

/-- Collaborators for the stuck traversal: the spatial query at the frontier
point (2, 0) intersects only edge position 1, the edge already being
traversed. -/
def c2geo : MGeo :=
  ⟨fun p => if p = ((2 : ℚ), (0 : ℚ)) then [1] else [], fun _ _ => 0, fun _ => none⟩

/-- Edges of the stuck network: the incoming edge 1 references node 2 as its
to_id, but no other edge geometry intersects that node's point. -/
def c2edges : List MEdge :=
  [⟨0, 0, 1, [((0 : ℚ), (0 : ℚ)), ((1 : ℚ), (0 : ℚ))]⟩,
   ⟨1, 1, 2, [((1 : ℚ), (0 : ℚ)), ((1 : ℚ), (1 : ℚ))]⟩,
   ⟨2, 2, 3, [((3 : ℚ), (1 : ℚ)), ((3 : ℚ), (2 : ℚ))]⟩]

/-- Node geometries of the stuck network. -/
def c2ng : List Pt :=
  [((0 : ℚ), (0 : ℚ)), ((1 : ℚ), (0 : ℚ)), ((2 : ℚ), (0 : ℚ)), ((3 : ℚ), (1 : ℚ))]

/-- Degree column of the stuck network (node 2 is referenced by edges 1 and 2,
so its degree is 2). -/
def c2deg : List ℤ := [1, 2, 2, 1]

/-- Walk state at the moment the traversal reaches node 2 along edge 1. -/
def c2stuck : WalkSt :=
  ⟨⟨1, 1, 2, [((1 : ℚ), (0 : ℚ)), ((1 : ℚ), (1 : ℚ))]⟩, 2, [1], [2], [], []⟩

/-- C2: the outward walk of merge_2 loops forever on a reachable state: the
frontier node has degree 2 by the reference count, but the spatial query at
its point returns only the edge being traversed, so min() is taken over an
empty candidate list, raises, and the bare except re-enters the while loop
with an unchanged state; the visited-list guard never fires because the
frontier is never appended. No amount of fuel makes the walk return. -/
theorem C2_walk_divergence (fuel : ℕ) :
    walk c2geo c2edges c2ng c2deg true ((0 : ℚ), (0 : ℚ)) fuel c2stuck = none := by
  induction fuel with
  | zero => rfl
  | succ n ih =>
    rw [show walk c2geo c2edges c2ng c2deg true ((0 : ℚ), (0 : ℚ)) (n + 1) c2stuck =
        walk c2geo c2edges c2ng c2deg true ((0 : ℚ), (0 : ℚ)) n c2stuck from rfl]
    exact ih
